import Mathlib

/-!
# Verification of the kvstore Bitcask-style engine

Shallow embedding of the `kvstore` repository: the record codec
(`kvs_protocol`, modelled from the spec since its source is not in the
repository snapshot), the concurrent engine `src/engine/kv.rs`
(`KvStore::set/get/remove`, `Compactor::compaction`, open-time replay),
the older engine `src/kv.rs` (`KvStore::remove`), and the request handler
`src/server.rs::handle_client_req`.

Byte strings are modelled as `List Nat` (one `Nat` per byte); machine
integer widths never matter here (all sizes are small and only grow).
-/

namespace KvStore

/-- A byte string (Rust `String` / `Vec<u8>`), one `Nat` per byte. -/
abbrev Str : Type := List Nat

/-- `kvs_protocol::request::Request`: the tagged record union. -/
inductive Request where
  | set (key val : Str)
  | rm (key : Str)
  | get (key : Str)
deriving DecidableEq

/-- Is a byte an ASCII decimal digit? -/
def isDigitB (b : Nat) : Bool := 48 ≤ b && b ≤ 57

/-- Fuel-driven helper for `natBytes` (structural recursion so that the
kernel can evaluate it; any `fuel > n` gives the same answer). -/
def natBytesGo : Nat → Nat → List Nat
  | 0, n => [48 + n % 10]
  | fuel + 1, n => if n < 10 then [48 + n] else natBytesGo fuel (n / 10) ++ [48 + n % 10]

/-- Decimal digit bytes of `n` (ASCII), most significant first.

Modelled from the spec: the record codec writes lengths "in decimal"
(spec §4.1); the `kvs_protocol` crate itself is not part of this
repository snapshot. -/
def natBytes (n : Nat) : List Nat := natBytesGo n n

/-- Fold decimal digit bytes back into a number. -/
def decodeDigits (ds : List Nat) : Nat :=
  ds.foldl (fun a d => a * 10 + (d - 48)) 0

/-- Length-prefixed field encoding used inside a record payload.

Modelled from the spec: §4.1 describes length-delimited textual framing;
field boundaries must be recoverable for arbitrary key/value bytes. -/
def netstr (s : Str) : Str := natBytes s.length ++ (58 :: s)

/-- Payload of one record: tag word, space, length-prefixed fields.

Modelled from the spec: §4.1, "a canonical textual encoding of the tagged
variant (`Set{key,val}` or `Rm{key}`)". -/
def payload : Request → Str
  | .set k v => [115, 101, 116, 32] ++ netstr k ++ (32 :: netstr v)
  | .rm k => [114, 109, 32] ++ netstr k
  | .get k => [103, 101, 116, 32] ++ netstr k

/-- `kvs_protocol::serializer::serialize`: `<len>\n<payload>\n`.

Modelled from the spec: §4.1. -/
def ser (r : Request) : Str :=
  natBytes (payload r).length ++ (10 :: (payload r ++ [10]))

/-- Split a leading run of decimal digits off a byte string. -/
def spanDigits : Str → Str × Str
  | [] => ([], [])
  | b :: r =>
    if isDigitB b then
      let p := spanDigits r
      (b :: p.1, p.2)
    else ([], b :: r)

/-- Parse one length-prefixed field; return it and the rest. -/
def parseNetstr (l : Str) : Option (Str × Str) :=
  let p := spanDigits l
  if p.1 = [] then none
  else
    match p.2 with
    | 58 :: r2 =>
      let n := decodeDigits p.1
      if n ≤ r2.length then some (r2.take n, r2.drop n) else none
    | _ => none

/-- Parse a record payload (the part between the framing newlines). -/
def parsePayload (l : Str) : Option Request :=
  match l with
  | 115 :: 101 :: 116 :: 32 :: r =>
    match parseNetstr r with
    | some (k, 32 :: r2) =>
      match parseNetstr r2 with
      | some (v, []) => some (.set k v)
      | _ => none
    | _ => none
  | 114 :: 109 :: 32 :: r =>
    match parseNetstr r with
    | some (k, []) => some (.rm k)
    | _ => none
  | 103 :: 101 :: 116 :: 32 :: r =>
    match parseNetstr r with
    | some (k, []) => some (.get k)
    | _ => none
  | _ => none

/-- `kvs_protocol::deserializer::deserialize`: accept exactly one framed
record, nothing more.

Modelled from the spec: §4.1 (the crate is not in the snapshot). -/
def deserialize (l : Str) : Option Request :=
  let p := spanDigits l
  if p.1 = [] then none
  else
    match p.2 with
    | 10 :: r2 =>
      let n := decodeDigits p.1
      if r2.length = n + 1 then
        match r2.drop n with
        | [10] => parsePayload (r2.take n)
        | _ => none
      else none
    | _ => none

/-- One step of `kvs_protocol::parser::KvReqParser::next`: carve the next
framed record off the front of the remaining buffer; return the framed
bytes and the rest.

Modelled from the spec: §4.1, the streaming parser "yields one record at
a time from a byte buffer" and "report[s] how many bytes it has
consumed". -/
def nextFrame (l : Str) : Option (Str × Str) :=
  let p := spanDigits l
  if p.1 = [] then none
  else
    match p.2 with
    | [] => none
    | b :: r2 =>
      if b = 10 then
        let n := decodeDigits p.1
        if n + 1 ≤ r2.length then
          match r2.drop n with
          | [] => none
          | c :: r3 =>
            if c = 10 then some (p.1 ++ (10 :: (r2.take n ++ [10])), r3) else none
        else none
      else none

/-! ## Engine state (`src/engine/kv.rs`) -/

/-- `CommandPos`: log pointer `(generation, offset, length)`
(`src/engine/kv.rs:24`). -/
structure CommandPos where
  logIdx : Nat
  startingPos : Nat
  len : Nat
deriving DecidableEq

/-- The key directory: association list standing for the `DashMap`.
Keys are unique in every reachable state. -/
abbrev KD := List (Str × CommandPos)

/-- Look a key up in the key directory. -/
def kdLookup (k : Str) : KD → Option CommandPos
  | [] => none
  | (k0, p) :: rest => if k0 = k then some p else kdLookup k rest

/-- Remove a key from the key directory (`DashMap::remove`). -/
def kdErase (k : Str) : KD → KD
  | [] => []
  | (k0, p) :: rest => if k0 = k then kdErase k rest else (k0, p) :: kdErase k rest

/-- Bind a key in the key directory (`DashMap::insert`); the iteration
order of a `DashMap` is unspecified, so placing the fresh binding last
is a harmless modelling choice. -/
def kdInsert (k : Str) (p : CommandPos) (l : KD) : KD :=
  kdErase k l ++ [(k, p)]

/-- `src/error.rs::KvsError`, restricted to the variants the verified
operations can produce (payloads of the Rust variants that only carry
diagnostic text are dropped). -/
inductive KvsError where
  | keyNotFound
  | io
  | kvsDeserializer
  | unexpectedCommandType (key : Str)
deriving DecidableEq

deriving instance DecidableEq for Except

/-- `COMPACTION_THRESHOLD` (`src/engine/kv.rs:22`). -/
def COMPACTION_THRESHOLD : Nat := 20

/-- Bytes `[pos, pos+len)` of a file: `seek(Start pos)` + `take(len)`
(copies fewer bytes when the file is shorter, like `Read::take`). -/
def sliceAt (content : Str) (pos len : Nat) : Str :=
  (content.drop pos).take len

/-- Overwrite `data` into `content` starting at byte `pos` without
truncating what lies beyond (`OpenOptions` without `truncate`). -/
def writeAt (content : Str) (pos : Nat) (data : Str) : Str :=
  content.take pos ++ data ++ content.drop (pos + data.length)

/-- Update one file of the data directory. -/
def setFile (files : Nat → Option Str) (g : Nat) (c : Str) : Nat → Option Str :=
  fun g' => if g' = g then some c else files g'

/-- Delete one file of the data directory. -/
def delFile (files : Nat → Option Str) (g : Nat) : Nat → Option Str :=
  fun g' => if g' = g then none else files g'

/-- The engine state of `src/engine/kv.rs`. Two details of the code are
modelled explicitly because they matter:

* there are TWO log-index counters: `logIdx` is `KvStore.log_idx`, a
  per-handle copy fixed at `open` that `set` stamps into every new
  `CommandPos` (`src/engine/kv.rs:209`) and that nothing ever updates,
  while `compLogIdx` is `Compactor.log_idx`, the counter that compaction
  advances (`src/engine/kv.rs:98`);
* there are TWO write positions: `writerPos` is the wrapper position
  `BufWriterWithPos.pos` that `set` reads (`src/buf_writer.rs` is not in
  the snapshot; its `pos` contract is spec §4.2), while `filePos` is the
  inner `BufWriter`'s cursor, where bytes actually land. `set` writes
  through the wrapper, advancing both; `remove` writes through the inner
  `buf_writer.writer` (`src/engine/kv.rs:252`), advancing only
  `filePos`, so the wrapper position desynchronizes from the file.

`files` is the on-disk directory; `cache` is the content visible through
the open handles of `KvsReader.readers` — a handle opened before a file
was unlinked still reads that inode, so deletion empties `files` but not
`cache`. `writerFile` is the generation the active writer's handle
points to (`logIdx` at open, rotated by a successful compaction). -/
structure Store where
  files : Nat → Option Str
  cache : Nat → Option Str
  keyDir : KD
  logIdx : Nat
  compLogIdx : Nat
  writerFile : Nat
  writerPos : Nat
  filePos : Nat
  uncompacted : Nat

/-- Resolve a generation as `KvsReader` does: a cached handle first
(`readers.contains_key`), otherwise `File::open` from disk. (The code
also inserts the freshly opened handle into the cache; since every write
to a live generation is visible through both the directory and any
handle of the same inode, and only `1.log` — cached since open — is ever
deleted, dropping that insertion does not change any read.) -/
def readGen (s : Store) (g : Nat) : Option Str :=
  match s.cache g with
  | some c => some c
  | none => s.files g

/-- Write `bytes` through the active writer: they land at the inner
cursor `filePos` of file `writerFile`, both on disk and through any
cached handle of that same inode. Returns the updated disk directory
and handle cache. -/
def writeActive (s : Store) (bytes : Str) : (Nat → Option Str) × (Nat → Option Str) :=
  (setFile s.files s.writerFile
     (writeAt ((s.files s.writerFile).getD []) s.filePos bytes),
   fun g =>
     if g = s.writerFile then
       match s.cache s.writerFile with
       | some c => some (writeAt c s.filePos bytes)
       | none => none
     else s.cache g)

/-- The copy phase of `Compactor::compaction` (`src/engine/kv.rs:72-85`):
for each directory entry, copy its `len` bytes from the source — read
through `read`, the reader's cache-then-disk resolution — into the
compaction writer's buffer and repoint the entry at the new generation;
`io::copy` returns the bytes actually copied. Returns the rewritten
directory, the buffered bytes, and the error of
`read_cmd_from_log_and_copy` when a source resolves nowhere (the entries
not yet visited keep their old positions, as in the partially executed
loop). -/
def copyLoop (read : Nat → Option Str) (newIdx : Nat) : KD → Nat → KD × Str × Option KvsError
  | [], _ => ([], [], none)
  | (k, pos) :: rest, off =>
    match read pos.logIdx with
    | none => ((k, pos) :: rest, [], some .io)
    | some content =>
      let bytes := sliceAt content pos.startingPos pos.len
      let r := copyLoop read newIdx rest (off + bytes.length)
      ((k, ⟨newIdx, off, bytes.length⟩) :: r.1, bytes ++ r.2.1, r.2.2)

/-- The deletion phase of `Compactor::compaction`
(`src/engine/kv.rs:91-93`): `for i in 1..new_idx { fs::remove_file(i)? }`.
A missing file makes `fs::remove_file` fail with a not-found error which
the `?` propagates, aborting the loop; files already removed stay
removed. `count` is the number of indices left to visit. Deletion
unlinks from the disk directory only; open handles keep their inode. -/
def deleteLoop (files : Nat → Option Str) (i : Nat) : Nat → (Nat → Option Str) × Option KvsError
  | 0 => (files, none)
  | count + 1 =>
    match files i with
    | none => (files, some .io)
    | some _ => deleteLoop (delFile files i) (i + 1) count

/-- `Compactor::compaction` (`src/engine/kv.rs:48-111`): copy live
entries into generation `compLogIdx + 1` (reading each source through
the reader, cache first), flush, delete generations `1..compLogIdx+1`
from disk, then advance `Compactor.log_idx` by two and rotate the writer
onto that generation — `KvStore.log_idx` is never touched. The snapshot
file is opened with `create(true).write(true)` (no truncate), so bytes
of a pre-existing file beyond what is written survive; on an error the
fields already mutated keep their new values and the ones not yet
reached keep their old values, exactly as in the Rust control flow. -/
def compactionOp (s : Store) : Option KvsError × Store :=
  let newIdx := s.compLogIdx + 1
  let oldSnap := (s.files newIdx).getD []
  let r := copyLoop (readGen s) newIdx s.keyDir 0
  let filesAC := setFile s.files newIdx (writeAt oldSnap 0 r.2.1)
  let cacheAC := fun g =>
    if g = newIdx then
      match s.cache newIdx with
      | some c => some (writeAt c 0 r.2.1)
      | none => none
    else s.cache g
  match r.2.2 with
  | some e => (some e, { s with keyDir := r.1, files := filesAC, cache := cacheAC })
  | none =>
    let d := deleteLoop filesAC 1 (newIdx - 1)
    match d.2 with
    | some e => (some e, { s with keyDir := r.1, files := d.1, cache := cacheAC })
    | none =>
      let newActive := s.compLogIdx + 2
      (none, { files := setFile d.1 newActive ((d.1 newActive).getD [])
               cache := cacheAC
               keyDir := r.1
               logIdx := s.logIdx
               compLogIdx := newActive
               writerFile := newActive
               writerPos := 0
               filePos := 0
               uncompacted := 0 })

/-- `KvsEngine::set for KvStore` (`src/engine/kv.rs:194-233`): append the
serialized `Set` record through the wrapper (both positions advance),
insert a `CommandPos` stamped with the FROZEN `KvStore.log_idx` and the
wrapper position, add the overwritten entry's `len` to `uncompacted`,
and run compaction when the counter exceeds the threshold. -/
def setOp (k v : Str) (s : Store) : Option KvsError × Store :=
  let bytes := ser (.set k v)
  let prevPos := s.writerPos
  let fc := writeActive s bytes
  let pos2 := prevPos + bytes.length
  let oldLen := match kdLookup k s.keyDir with
    | some o => o.len
    | none => 0
  let kd2 := kdInsert k ⟨s.logIdx, prevPos, pos2 - prevPos⟩ s.keyDir
  let s1 : Store :=
    { s with files := fc.1, cache := fc.2, keyDir := kd2,
             writerPos := pos2, filePos := s.filePos + bytes.length,
             uncompacted := s.uncompacted + oldLen }
  if s1.uncompacted > COMPACTION_THRESHOLD then compactionOp s1 else (none, s1)

/-- `KvsEngine::remove for KvStore` (`src/engine/kv.rs:246-272`): the key
is removed from the `DashMap` first; only then is the tombstone written
and flushed through the INNER `buf_writer.writer` (`:252`), which
advances the file cursor but not the wrapper position, so
`pos_after_writing - pos_before_writing = 0` tombstone bytes are charged
to `uncompacted` (only the removed entry's `len` is). `wfail` is the
environment's verdict on that write+flush; when it fails the error
returns with the key already gone and nothing persisted. -/
def removeOp (wfail : Bool) (k : Str) (s : Store) : Option KvsError × Store :=
  match kdLookup k s.keyDir with
  | none => (some .keyNotFound, s)
  | some old =>
    let kd2 := kdErase k s.keyDir
    if wfail then (some .io, { s with keyDir := kd2 })
    else
      let bytes := ser (.rm k)
      let posBefore := s.writerPos
      let fc := writeActive s bytes
      let posAfter := s.writerPos
      let s1 : Store :=
        { s with files := fc.1, cache := fc.2, keyDir := kd2,
                 filePos := s.filePos + bytes.length,
                 uncompacted := s.uncompacted + (posAfter - posBefore) + old.len }
      if s1.uncompacted > COMPACTION_THRESHOLD then compactionOp s1 else (none, s1)

/-- `KvsEngine::get for KvStore` (`src/engine/kv.rs:235-244`) together
with `KvsReader::read_cmd_from_log` (`src/engine/kv.rs:162-180`): look
the key up, resolve its generation through the reader (cached handle
first, disk otherwise), read its byte range, deserialize; a non-`Set`
record is the `UnexpectedCommandType` error. -/
def getFn (k : Str) (s : Store) : Except KvsError (Option Str) :=
  match kdLookup k s.keyDir with
  | none => .ok none
  | some pos =>
    match readGen s pos.logIdx with
    | none => .error .io
    | some content =>
      match deserialize (sliceAt content pos.startingPos pos.len) with
      | some (.set _ v) => .ok (some v)
      | some _ => .error (.unexpectedCommandType k)
      | none => .error .kvsDeserializer

/-- The state `KvStore::open` produces on an empty data directory
(`src/engine/kv.rs:277-378`): no records to replay, generation `0 + 1 =
1` for both counters, fresh empty `1.log` on disk and in the reader
cache (open inserts the new file's reader), empty key directory, zero
`uncompacted`. -/
def initStore : Store :=
  { files := fun g => if g = 1 then some [] else none
    cache := fun g => if g = 1 then some [] else none
    keyDir := []
    logIdx := 1
    compLogIdx := 1
    writerFile := 1
    writerPos := 0
    filePos := 0
    uncompacted := 0 }

/-- States of the concurrent engine reachable from a store opened on an
empty directory by any sequence of `set` and `remove` calls (`get` does
not change the state; compaction only ever runs inside `set`/`remove`).
`remove` steps include those whose tombstone append fails. -/
inductive Reachable : Store → Prop
  | init : Reachable initStore
  | set (k v : Str) {s : Store} : Reachable s → Reachable (setOp k v s).2
  | rm (b : Bool) (k : Str) {s : Store} : Reachable s → Reachable (removeOp b k s).2

/-! ## Open-time replay (`src/engine/kv.rs:289-331`) -/

/-- The replay loop of `KvStore::open` over one log file's bytes:
`while let Some(v) = parser.next()` — frame the next record; on a decode
success update the directory (a `Set` inserts, adding a superseded
entry's `len` to `uncompacted`; an `Rm` removes, adding the removed
entry's `len`; a `Get` does nothing) and advance `starting_pos` to
`read_so_far`; on a decode failure only log and continue, leaving
`starting_pos` where it was. `fuel` makes the recursion structural; any
`fuel > rem.length` gives the run-to-completion result. -/
def replayGo (gen : Nat) : Nat → Str → Nat → Nat → KD → Nat → KD × Nat
  | 0, _, _, _, kd, u => (kd, u)
  | fuel + 1, rem, consumed, sp, kd, u =>
    match nextFrame rem with
    | none => (kd, u)
    | some (chunk, rest) =>
      let readSoFar := consumed + chunk.length
      match deserialize chunk with
      | some (.set k _) =>
        let oldLen := match kdLookup k kd with
          | some o => o.len
          | none => 0
        replayGo gen fuel rest readSoFar readSoFar
          (kdInsert k ⟨gen, sp, readSoFar - sp⟩ kd) (u + oldLen)
      | some (.rm k) =>
        let oldLen := match kdLookup k kd with
          | some o => o.len
          | none => 0
        replayGo gen fuel rest readSoFar readSoFar (kdErase k kd) (u + oldLen)
      | some (.get _) => replayGo gen fuel rest readSoFar readSoFar kd u
      | none => replayGo gen fuel rest readSoFar sp kd u

/-- Replay one whole log file on top of an existing directory and
counter, as `KvStore::open` does for each file in generation order. -/
def replayFile (gen : Nat) (buf : Str) (kd : KD) (u : Nat) : KD × Nat :=
  replayGo gen (buf.length + 1) buf 0 0 kd u

/-- Look a generation up in the on-disk directory listing. -/
def dirLookup (g : Nat) : List (Nat × Str) → Option Str
  | [] => none
  | (g0, c) :: rest => if g0 = g then some c else dirLookup g rest

/-- `KvStore::open` (`src/engine/kv.rs:277-378`) on a data directory
given as a listing of `(generation, bytes)` with distinct generations:
sort the generations (`log_files` sorts ascending), replay each file,
set the active generation to `last sorted + 1` (`unwrap_or(&0) + 1`),
and create that file for append (`create(true)` keeps existing bytes). -/
def openStore (dir : List (Nat × Str)) : Store :=
  let gens := List.insertionSort (· ≤ ·) (dir.map Prod.fst)
  let rep := gens.foldl
    (fun (acc : KD × Nat) g => replayFile g ((dirLookup g dir).getD []) acc.1 acc.2)
    ([], 0)
  let newIdx := gens.getLast?.getD 0 + 1
  { files := fun g =>
      if g = newIdx then some ((dirLookup g dir).getD []) else dirLookup g dir
    cache := fun g =>
      if g = newIdx then some ((dirLookup g dir).getD []) else dirLookup g dir
    keyDir := rep.1
    logIdx := newIdx
    compLogIdx := newIdx
    writerFile := newIdx
    writerPos := 0
    filePos := 0
    uncompacted := rep.2 }

/-! ## The older engine (`src/kv.rs`) -/

/-- `src/kv.rs::Command`: the records of the older store. -/
inductive OldCommand where
  | set (key val : Str)
  | remove (key : Str)
deriving DecidableEq

/-- Naive JSON string quoting. Modelled from serde_json (an external
library): escape handling is omitted, which is sound for the
alphanumeric keys the theorems instantiate. -/
def jsonStr (s : Str) : Str := 34 :: (s ++ [34])

/-- serde_json encoding of a `Command`, e.g.
`{"Set":{"key":"a","val":"b"}}`. Modelled from serde_json. -/
def jsonSer : OldCommand → Str
  | .set k v =>
    [123, 34, 83, 101, 116, 34, 58, 123, 34, 107, 101, 121, 34, 58] ++ jsonStr k
      ++ [44, 34, 118, 97, 108, 34, 58] ++ jsonStr v ++ [125, 125]
  | .remove k =>
    [123, 34, 82, 101, 109, 111, 118, 101, 34, 58, 123, 34, 107, 101, 121, 34, 58]
      ++ jsonStr k ++ [125, 125]

/-- Read a quoted JSON string (no escape handling, as in `jsonStr`). -/
def parseQuoted (l : Str) : Option (Str × Str) :=
  match l with
  | 34 :: r =>
    let p := List.span (fun b => b != 34) r
    match p.2 with
    | 34 :: rest => some (p.1, rest)
    | _ => none
  | _ => none

/-- serde_json decoding of a `Command` (inverse of `jsonSer` on
escape-free strings). Modelled from serde_json. -/
def jsonDeser (l : Str) : Option OldCommand :=
  match l with
  | 123 :: 34 :: 83 :: 101 :: 116 :: 34 :: 58 :: 123 :: 34 :: 107 :: 101 :: 121 :: 34 :: 58 :: r =>
    match parseQuoted r with
    | some (k, 44 :: 34 :: 118 :: 97 :: 108 :: 34 :: 58 :: r2) =>
      match parseQuoted r2 with
      | some (v, [125, 125]) => some (.set k v)
      | _ => none
    | _ => none
  | 123 :: 34 :: 82 :: 101 :: 109 :: 111 :: 118 :: 101 :: 34 :: 58 :: 123 :: 34 :: 107 :: 101 :: 121 :: 34 :: 58 :: r =>
    match parseQuoted r with
    | some (k, [125, 125]) => some (.remove k)
    | _ => none
  | _ => none

/-- The state of the older `src/kv.rs` store: one directory of files,
one key directory, one generation counter and ONE writer position —
`serde_json::to_writer(&mut self.writer, ..)` goes through the
`BufWriterWithPos` wrapper, so its position tracks the file. -/
structure OldStore where
  files : Nat → Option Str
  keyDir : KD
  logIdx : Nat
  writerPos : Nat
  uncompacted : Nat

/-- `KvStore::remove` of the older store (`src/kv.rs:257-269`): the
tombstone is serialized to the writer and flushed BEFORE the directory
is consulted; only then does an absent key produce `KeyNotFound`. -/
def oldRemove (k : Str) (s : OldStore) : Option KvsError × OldStore :=
  let bytes := jsonSer (.remove k)
  let active := (s.files s.logIdx).getD []
  let files2 := setFile s.files s.logIdx (writeAt active s.writerPos bytes)
  let s1 : OldStore := { s with files := files2, writerPos := s.writerPos + bytes.length }
  match kdLookup k s.keyDir with
  | some _ => (none, { s1 with keyDir := kdErase k s.keyDir })
  | none => (some .keyNotFound, s1)

/-- `KvStore::get` of the older store (`src/kv.rs:210-254`): the outer
`Option` is `none` when the code panics (`unwrap` on a missing reader or
an undecodable record); `some none` is `Ok(None)`, also for a non-`Set`
record (this `get` silently maps tombstones to `None`). -/
def oldGet (k : Str) (s : OldStore) : Option (Option Str) :=
  match kdLookup k s.keyDir with
  | none => some none
  | some pos =>
    match s.files pos.logIdx with
    | none => none
    | some content =>
      match jsonDeser (sliceAt content pos.startingPos pos.len) with
      | some (.set _ v) => some (some v)
      | some _ => some none
      | none => none

/-- The older store freshly opened on an empty directory
(`src/kv.rs:271-357`). -/
def oldInit : OldStore :=
  { files := fun g => if g = 1 then some [] else none
    keyDir := []
    logIdx := 1
    writerPos := 0
    uncompacted := 0 }

/-! ## The request handler (`src/server.rs:206-278`) -/

/-- `src/transport.rs::Response`: `error` is skipped when `None`. -/
structure Response where
  error : Option Str
  result : Str
deriving DecidableEq

/-- The bytes of `"Key not found"`. -/
def msgKeyNotFound : Str := [75, 101, 121, 32, 110, 111, 116, 32, 102, 111, 117, 110, 100]

/-- serde_json rendering of a `Response`
(`#[serde(skip_serializing_if = "Option::is_none")]` on `error`).
Modelled from serde_json; naive quoting as in `jsonStr`. -/
def respRender (r : Response) : Str :=
  match r.error with
  | none => [123, 34, 114, 101, 115, 117, 108, 116, 34, 58] ++ jsonStr r.result ++ [125]
  | some e =>
    [123, 34, 101, 114, 114, 111, 114, 34, 58] ++ jsonStr e
      ++ [44, 34, 114, 101, 115, 117, 108, 116, 34, 58] ++ jsonStr r.result ++ [125]

/-- `handle_client_req` (`src/server.rs:206-278`) after a successful
decode of the request, against the concurrent engine: the returned list
is the sequence of responses written-and-flushed to the socket. A `Get`
whose engine call fails writes nothing (`info!("no response:")`); a
`Set` writes nothing at all (both arms only log); an `Rm` always writes
one response, with `error = Some "Key not found")` on any engine error. -/
def handleClientReq (req : Request) (s : Store) : List Response × Store :=
  match req with
  | .get k =>
    match getFn k s with
    | .ok (some v) => ([{ error := none, result := v }], s)
    | .ok none => ([{ error := some msgKeyNotFound, result := [] }], s)
    | .error _ => ([], s)
  | .set k v => ([], (setOp k v s).2)
  | .rm k =>
    let r := removeOp false k s
    ([{ error := match r.1 with
          | some _ => some msgKeyNotFound
          | none => none,
        result := [] }], r.2)

/-- `10 ^ number of decimal digits of n`; proof-side companion of
`natBytes`. -/
def tpow (n : Nat) : Nat :=
  if h : n < 10 then 10 else 10 * tpow (n / 10)
  decreasing_by
    exact Nat.div_lt_self (by omega) (by omega)

/-- The invariant of the SAFE regime of the concurrent engine: no
compaction has completed yet and no tombstone has been appended since
open, so the frozen `KvStore.log_idx`, the compactor's counter and the
writer's file all still agree (generation 1), the wrapper position still
mirrors the file cursor, generation 1 is the only file — identical on
disk and through the reader cache — and every directory entry points
into it at a byte range that is exactly one serialized `Set` record for
its key. Outside this regime the code's stale generation stamp and
desynchronized wrapper position break those properties (claims C1/C2). -/
structure Inv (s : Store) : Prop where
  idx : s.logIdx = 1
  cidx : s.compLogIdx = 1
  wfile : s.writerFile = 1
  sync : s.writerPos = s.filePos
  store1 : ∃ c, s.files 1 = some c ∧ s.cache 1 = some c ∧ s.filePos = c.length ∧
    ∀ k pos, kdLookup k s.keyDir = some pos → pos.logIdx = 1 ∧
      ∃ v, pos.startingPos + pos.len ≤ c.length ∧
        sliceAt c pos.startingPos pos.len = ser (.set k v)
  others : ∀ g, g ≠ 1 → s.files g = none ∧ s.cache g = none
  nodup : (s.keyDir.map Prod.fst).Nodup

/-- The safe-regime reachable states: reached from a store opened on an
empty directory by sets that do not push `uncompacted` past the
threshold (so they do not run compaction) and removes that persist no
tombstone (absent key, or the tombstone write fails). -/
inductive SafeReach : Store → Prop
  | init : SafeReach initStore
  | set (k v : Str) {s : Store} : SafeReach s →
      s.uncompacted + (match kdLookup k s.keyDir with
        | some o => o.len
        | none => 0) ≤ COMPACTION_THRESHOLD →
      SafeReach (setOp k v s).2
  | rmAbsent (b : Bool) (k : Str) {s : Store} : SafeReach s →
      kdLookup k s.keyDir = none → SafeReach (removeOp b k s).2
  | rmFail (k : Str) {s : Store} : SafeReach s → SafeReach (removeOp true k s).2

/-- Concatenated serialization of a list of records, as an append-only
log file holds them. -/
def serAll (rs : List Request) : Str := (rs.map ser).flatten

/-- Specification-level fold of open-time replay over a list of
well-formed records: what the replay loop computes when every record
frames and decodes. -/
def replaySpec (gen : Nat) : List Request → Nat → Nat → KD → Nat → KD × Nat
  | [], _, _, kd, u => (kd, u)
  | r :: rs, c, sp, kd, u =>
    match r with
    | .set k _ =>
      replaySpec gen rs (c + (ser r).length) (c + (ser r).length)
        (kdInsert k ⟨gen, sp, c + (ser r).length - sp⟩ kd)
        (u + (match kdLookup k kd with
              | some o => o.len
              | none => 0))
    | .rm k =>
      replaySpec gen rs (c + (ser r).length) (c + (ser r).length) (kdErase k kd)
        (u + (match kdLookup k kd with
              | some o => o.len
              | none => 0))
    | .get _ => replaySpec gen rs (c + (ser r).length) (c + (ser r).length) kd u

/-- Demo key `"a"`. -/
def keyA : Str := [97]

/-- Demo key `"b"`. -/
def keyB : Str := [98]

/-- Demo value `"x"`. -/
def valX : Str := [120]

/-- The store after `set a x` on a freshly opened empty directory. -/
def demo1 : Store := (setOp keyA valX initStore).2

/-- After a second `set a x`: the first record is now stale. -/
def demo2 : Store := (setOp keyA valX demo1).2

/-- After a third `set a x`: `uncompacted` passed the threshold, so this
`set` ran the first compaction (it succeeds and deletes `1.log`). -/
def demo3 : Store := (setOp keyA valX demo2).2

/-- After a fourth `set a x` on the compacted store. -/
def demo4 : Store := (setOp keyA valX demo3).2

/-- A framed chunk (`"1\nx\n"`) whose payload does not decode: the
framing parser accepts it, `deserialize` rejects it. -/
def badChunk : Str := [49, 10, 120, 10]

/-- Demo value `"w"` (same length as `valX`, different byte). -/
def valW : Str := [119]

/-- A six-byte demo key `"kkkkkk"`: its tombstone `ser (.rm key6)` is 15
bytes long — exactly the length of `ser (.set keyA valX)`. -/
def key6 : Str := [107, 107, 107, 107, 107, 107]

/-- The store after `set key6 w; remove key6` on a freshly opened empty
directory: the tombstone went through the inner writer, so the wrapper
position (20) lags the file cursor (35) by the tombstone's 15 bytes. -/
def rmStore : Store := (removeOp false key6 (setOp key6 valW initStore).2).2

/-- One more `set a x` on `rmStore`: the entry is recorded at the stale
wrapper position 20 while the bytes land at the file cursor 35, so the
recorded range `[20, 35)` is exactly the 15-byte tombstone of `key6`. -/
def desyncStore : Store := (setOp keyA valX rmStore).2

/-- A small store with one three-byte directory entry, used to exercise
the uncompacted arithmetic of remove below the threshold. -/
def c9Store : Store :=
  { files := fun g => if g = 1 then some [] else none
    cache := fun g => if g = 1 then some [] else none
    keyDir := [(keyA, ⟨1, 0, 3⟩)]
    logIdx := 1
    compLogIdx := 1
    writerFile := 1
    writerPos := 0
    filePos := 0
    uncompacted := 0 }

/-! ## Codec lemmas -/

theorem natBytesGo_irrel : ∀ f1 f2 n, n ≤ f1 → n ≤ f2 → natBytesGo f1 n = natBytesGo f2 n := by
  intro f1
  induction f1 with
  | zero =>
    intro f2 n h1 _
    interval_cases n
    cases f2 <;> simp [natBytesGo]
  | succ f ih =>
    intro f2 n h1 h2
    cases f2 with
    | zero =>
      interval_cases n
      simp [natBytesGo]
    | succ f2 =>
      simp only [natBytesGo]
      by_cases h : n < 10
      · simp [h]
      · simp only [if_neg h]
        have hd : n / 10 < n := Nat.div_lt_self (by omega) (by omega)
        rw [ih f2 (n / 10) (by omega) (by omega)]

theorem natBytes_eq (n : Nat) :
    natBytes n = if n < 10 then [48 + n] else natBytes (n / 10) ++ [48 + n % 10] := by
  by_cases h : n < 10
  · simp only [natBytes, if_pos h]
    cases n with
    | zero => simp [natBytesGo]
    | succ m => simp [natBytesGo, h]
  · simp only [natBytes, if_neg h]
    have h10 : 10 ≤ n := by omega
    obtain ⟨m, rfl⟩ : ∃ m, n = m + 1 := ⟨n - 1, by omega⟩
    simp only [natBytesGo, if_neg h]
    congr 1
    exact natBytesGo_irrel m ((m + 1) / 10) ((m + 1) / 10) (by omega) le_rfl

theorem natBytes_digits (n : Nat) : ∀ d ∈ natBytes n, isDigitB d = true := by
  induction n using Nat.strong_induction_on with
  | _ n ih =>
    rw [natBytes_eq]
    by_cases h : n < 10
    · simp only [if_pos h, List.mem_singleton]
      rintro d rfl
      simp [isDigitB]
      omega
    · simp only [if_neg h, List.mem_append, List.mem_singleton]
      rintro d (hd | rfl)
      · exact ih (n / 10) (Nat.div_lt_self (by omega) (by omega)) d hd
      · simp [isDigitB]
        omega

theorem natBytes_ne_nil (n : Nat) : natBytes n ≠ [] := by
  rw [natBytes_eq]
  by_cases h : n < 10 <;> simp [h]

theorem decode_go (n : Nat) : ∀ acc rest,
    List.foldl (fun a d => a * 10 + (d - 48)) acc (natBytes n ++ rest)
      = List.foldl (fun a d => a * 10 + (d - 48)) (acc * tpow n + n) rest := by
  induction n using Nat.strong_induction_on with
  | _ n ih =>
    intro acc rest
    rw [natBytes_eq, tpow]
    by_cases h : n < 10
    · simp only [if_pos h, dif_pos h, List.cons_append, List.nil_append, List.foldl_cons]
      congr 1
      omega
    · simp only [if_neg h, dif_neg h, List.append_assoc, List.cons_append, List.nil_append]
      rw [ih (n / 10) (Nat.div_lt_self (by omega) (by omega))]
      simp only [List.foldl_cons]
      congr 1
      have : 10 * (n / 10) + n % 10 = n := Nat.div_add_mod n 10
      have h48 : 48 + n % 10 - 48 = n % 10 := by omega
      rw [h48]
      ring_nf
      omega

theorem decodeDigits_natBytes (n : Nat) : decodeDigits (natBytes n) = n := by
  have := decode_go n 0 []
  simpa [decodeDigits] using this

theorem spanDigits_append (ds : Str) (b : Nat) (rest : Str)
    (hds : ∀ d ∈ ds, isDigitB d = true) (hb : isDigitB b = false) :
    spanDigits (ds ++ b :: rest) = (ds, b :: rest) := by
  induction ds with
  | nil => simp [spanDigits, hb]
  | cons d ds ih =>
    have hd : isDigitB d = true := hds d (by simp)
    simp only [List.cons_append, spanDigits, hd, if_pos, List.append_eq]
    rw [ih (fun x hx => hds x (by simp [hx]))]

theorem spanDigits_eq_append (l : Str) : l = (spanDigits l).1 ++ (spanDigits l).2 := by
  induction l with
  | nil => simp [spanDigits]
  | cons b r ih =>
    by_cases h : isDigitB b
    · simp only [spanDigits, h, if_pos]
      simpa using ih
    · simp [spanDigits, h]



theorem parseNetstr_netstr (s rest : Str) :
    parseNetstr (netstr s ++ rest) = some (s, rest) := by
  have hsp : spanDigits (natBytes s.length ++ 58 :: (s ++ rest))
      = (natBytes s.length, 58 :: (s ++ rest)) :=
    spanDigits_append _ _ _ (natBytes_digits _) (by decide)
  simp only [parseNetstr, netstr, List.append_assoc, List.cons_append, hsp,
    natBytes_ne_nil, if_neg, decodeDigits_natBytes]
  rw [if_neg (by simp [natBytes_ne_nil])]
  rw [if_pos (by simp)]
  rw [List.take_left, List.drop_left]

theorem parsePayload_payload (r : Request) : parsePayload (payload r) = some r := by
  cases r with
  | set k v =>
    have hv : parseNetstr (netstr v) = some (v, []) := by
      simpa using parseNetstr_netstr v []
    show parsePayload (115 :: 101 :: 116 :: 32 :: (netstr k ++ (32 :: netstr v))) = _
    simp only [parsePayload, parseNetstr_netstr, hv]
  | rm k =>
    have hk : parseNetstr (netstr k) = some (k, []) := by
      simpa using parseNetstr_netstr k []
    show parsePayload (114 :: 109 :: 32 :: netstr k) = _
    simp only [parsePayload, hk]
  | get k =>
    have hk : parseNetstr (netstr k) = some (k, []) := by
      simpa using parseNetstr_netstr k []
    show parsePayload (103 :: 101 :: 116 :: 32 :: netstr k) = _
    simp only [parsePayload, hk]

theorem deserialize_ser (r : Request) : deserialize (ser r) = some r := by
  have hsp : spanDigits (natBytes (payload r).length ++ 10 :: (payload r ++ [10]))
      = (natBytes (payload r).length, 10 :: (payload r ++ [10])) :=
    spanDigits_append _ _ _ (natBytes_digits _) (by decide)
  simp only [deserialize, ser, hsp]
  rw [if_neg (by simp [natBytes_ne_nil])]
  simp only [decodeDigits_natBytes]
  rw [if_pos (by simp)]
  have hd : (payload r ++ [10]).drop (payload r).length = [10] := List.drop_left _ _
  have ht : (payload r ++ [10]).take (payload r).length = payload r := List.take_left _ _
  rw [hd, ht, parsePayload_payload]

theorem nextFrame_ser (r : Request) (rest : Str) :
    nextFrame (ser r ++ rest) = some (ser r, rest) := by
  have hsp : spanDigits (natBytes (payload r).length ++ 10 :: (payload r ++ 10 :: rest))
      = (natBytes (payload r).length, 10 :: (payload r ++ 10 :: rest)) :=
    spanDigits_append _ _ _ (natBytes_digits _) (by decide)
  have harr : ser r ++ rest = natBytes (payload r).length ++ 10 :: (payload r ++ 10 :: rest) := by
    simp [ser]
  rw [harr]
  simp only [nextFrame, hsp]
  rw [if_neg (by simp [natBytes_ne_nil])]
  simp only [decodeDigits_natBytes]
  rw [if_pos (by simp)]
  have hd : (payload r ++ 10 :: rest).drop (payload r).length = 10 :: rest :=
    List.drop_left _ _
  have ht : (payload r ++ 10 :: rest).take (payload r).length = payload r :=
    List.take_left _ _
  rw [hd, ht]
  simp [ser]



theorem nextFrame_some (l chunk rest : Str) (h : nextFrame l = some (chunk, rest)) :
    rest.length < l.length ∧ l = chunk ++ rest := by
  have hsplit := spanDigits_eq_append l
  simp only [nextFrame] at h
  by_cases h1 : (spanDigits l).1 = []
  · simp [h1] at h
  · rw [if_neg h1] at h
    revert h
    match hm : (spanDigits l).2 with
    | [] => intro h; exact absurd h (by simp)
    | b :: r2 =>
      intro h
      dsimp only at h
      by_cases hb : b = 10
      swap
      · rw [if_neg hb] at h; exact absurd h (by simp)
      rw [if_pos hb] at h
      by_cases hlen : decodeDigits (spanDigits l).1 + 1 ≤ r2.length
      swap
      · rw [if_neg hlen] at h; exact absurd h (by simp)
      rw [if_pos hlen] at h
      revert h
      match hdr : r2.drop (decodeDigits (spanDigits l).1) with
      | [] => intro h; exact absurd h (by simp)
      | c :: r3 =>
        intro h
        dsimp only at h
        by_cases hc : c = 10
        swap
        · rw [if_neg hc] at h; exact absurd h (by simp)
        rw [if_pos hc] at h
        simp only [Option.some.injEq, Prod.mk.injEq] at h
        obtain ⟨hch, hr⟩ := h
        subst hr
        have hlee : l.length = (spanDigits l).1.length + (b :: r2).length := by
          conv_lhs => rw [hsplit, hm]
          simp
        have hlenr3 : r3.length + decodeDigits (spanDigits l).1 + 1 = r2.length := by
          have := congrArg List.length hdr
          simp at this
          omega
        have hne : 1 ≤ (spanDigits l).1.length := List.length_pos.mpr h1
        constructor
        · simp at hlee
          omega
        · have hr2 : r2 = r2.take (decodeDigits (spanDigits l).1) ++ (c :: r3) := by
            conv_lhs => rw [← List.take_append_drop (decodeDigits (spanDigits l).1) r2]
            rw [hdr]
          subst hb hc
          rw [hsplit, hm, ← hch]
          simp only [List.append_assoc, List.cons_append, List.nil_append]
          rw [← hr2]


/-! ## State helper lemmas -/

theorem writeAt_append (c d : Str) : writeAt c c.length d = c ++ d := by
  unfold writeAt
  rw [List.take_length, List.drop_eq_nil_of_le (show c.length ≤ c.length + d.length by omega)]
  simp

theorem writeAt_zero (c d : Str) : writeAt c 0 d = d ++ c.drop d.length := by
  simp [writeAt]

theorem sliceAt_append (c d : Str) (off len : Nat) (h : off + len ≤ c.length) :
    sliceAt (c ++ d) off len = sliceAt c off len := by
  unfold sliceAt
  rw [List.drop_append_of_le_length (show off ≤ c.length by omega)]
  rw [List.take_append_of_le_length (show len ≤ (c.drop off).length by simp; omega)]

theorem sliceAt_last (c d : Str) : sliceAt (c ++ d) c.length d.length = d := by
  unfold sliceAt
  rw [List.drop_left, List.take_length]

theorem sliceAt_length (c : Str) (off len : Nat) (h : off + len ≤ c.length) :
    (sliceAt c off len).length = len := by
  simp [sliceAt]
  omega

theorem kdLookup_append (k : Str) (l1 l2 : KD) :
    kdLookup k (l1 ++ l2) = match kdLookup k l1 with
      | some p => some p
      | none => kdLookup k l2 := by
  induction l1 with
  | nil => simp [kdLookup]
  | cons e rest ih =>
    obtain ⟨k0, p0⟩ := e
    by_cases h0 : k0 = k
    · simp [kdLookup, h0]
    · simp only [List.cons_append, kdLookup, if_neg h0]
      exact ih

theorem kdLookup_erase_self (k : Str) (l : KD) : kdLookup k (kdErase k l) = none := by
  induction l with
  | nil => rfl
  | cons e rest ih =>
    obtain ⟨k0, p0⟩ := e
    by_cases h : k0 = k
    · simpa [kdErase, h] using ih
    · simpa [kdErase, h, kdLookup] using ih

theorem kdLookup_erase_ne (k k' : Str) (l : KD) (h : k' ≠ k) :
    kdLookup k' (kdErase k l) = kdLookup k' l := by
  have hne : ¬k = k' := fun he => h he.symm
  induction l with
  | nil => rfl
  | cons e rest ih =>
    obtain ⟨k0, p0⟩ := e
    by_cases h0 : k0 = k
    · rw [show kdErase k ((k0, p0) :: rest) = kdErase k rest by simp [kdErase, h0]]
      rw [ih, kdLookup, if_neg (h0 ▸ hne)]
    · rw [show kdErase k ((k0, p0) :: rest) = (k0, p0) :: kdErase k rest by
        simp [kdErase, h0]]
      by_cases h1 : k0 = k'
      · simp [kdLookup, h1]
      · simp only [kdLookup, if_neg h1]
        exact ih

theorem kdLookup_insert_self (k : Str) (p : CommandPos) (l : KD) :
    kdLookup k (kdInsert k p l) = some p := by
  unfold kdInsert
  rw [kdLookup_append, kdLookup_erase_self]
  simp [kdLookup]

theorem kdLookup_insert_ne (k k' : Str) (p : CommandPos) (l : KD) (h : k' ≠ k) :
    kdLookup k' (kdInsert k p l) = kdLookup k' l := by
  unfold kdInsert
  rw [kdLookup_append, kdLookup_erase_ne k k' l h]
  cases hl : kdLookup k' l with
  | some q => rfl
  | none =>
    simp only [kdLookup]
    rw [if_neg (fun he : k = k' => h he.symm)]

theorem kdErase_keys (k : Str) (l : KD) :
    (kdErase k l).map Prod.fst = (l.map Prod.fst).filter (fun x => x ≠ k) := by
  induction l with
  | nil => rfl
  | cons e rest ih =>
    obtain ⟨k0, p0⟩ := e
    by_cases h : k0 = k
    · simp [kdErase, h, ih]
    · simp [kdErase, h, ih]

theorem kdErase_nodup (k : Str) (l : KD)
    (h : (l.map Prod.fst).Nodup) : ((kdErase k l).map Prod.fst).Nodup := by
  rw [kdErase_keys]
  exact h.filter _

theorem kdInsert_nodup (k : Str) (p : CommandPos) (l : KD)
    (h : (l.map Prod.fst).Nodup) : ((kdInsert k p l).map Prod.fst).Nodup := by
  unfold kdInsert
  rw [List.map_append, kdErase_keys]
  simp only [List.map_cons, List.map_nil]
  apply List.Nodup.append
  · exact h.filter _
  · simp
  · intro a ha hb
    simp at hb
    subst hb
    have := List.of_mem_filter ha
    simp at this

theorem kdLookup_keys_none (k : Str) (l : KD) (h : k ∉ l.map Prod.fst) :
    kdLookup k l = none := by
  induction l with
  | nil => rfl
  | cons e rest ih =>
    obtain ⟨k0, p0⟩ := e
    have h1 : ¬k0 = k := fun he => h (by simp [he])
    have h2 : k ∉ rest.map Prod.fst := fun hm => h (by simp [hm])
    simp [kdLookup, h1, ih h2]

theorem kdLookup_mem_keys (k : Str) (l : KD) (p : CommandPos)
    (h : kdLookup k l = some p) : k ∈ l.map Prod.fst := by
  induction l with
  | nil => simp [kdLookup] at h
  | cons e rest ih =>
    obtain ⟨k0, p0⟩ := e
    by_cases h0 : k0 = k
    · simp [h0]
    · simp only [kdLookup, if_neg h0] at h
      simp only [List.map_cons, List.mem_cons]
      exact Or.inr (ih h)


/-! ## Replay lemmas -/

theorem ser_length_pos (r : Request) : 0 < (ser r).length := by
  unfold ser
  cases hn : natBytes (payload r).length with
  | nil => exact absurd hn (natBytes_ne_nil _)
  | cons b rest => simp

theorem replayGo_congr (gen : Nat) : ∀ f1 f2 rem c sp kd u, rem.length < f1 →
    rem.length < f2 → replayGo gen f1 rem c sp kd u = replayGo gen f2 rem c sp kd u := by
  intro f1
  induction f1 with
  | zero => intro f2 rem c sp kd u h1; omega
  | succ f ih =>
    intro f2 rem c sp kd u h1 h2
    cases f2 with
    | zero => omega
    | succ f2 =>
      cases hnf : nextFrame rem with
      | none => simp only [replayGo, hnf]
      | some pr =>
        obtain ⟨chunk, rest⟩ := pr
        have hlt := (nextFrame_some rem chunk rest hnf).1
        simp only [replayGo, hnf]
        cases hd : deserialize chunk with
        | none => exact ih f2 rest _ _ _ _ (by omega) (by omega)
        | some req =>
          cases req with
          | set k v => exact ih f2 rest _ _ _ _ (by omega) (by omega)
          | rm k => exact ih f2 rest _ _ _ _ (by omega) (by omega)
          | get k => exact ih f2 rest _ _ _ _ (by omega) (by omega)

theorem replayGo_stop (gen fuel : Nat) (rem : Str) (c sp : Nat) (kd : KD) (u : Nat)
    (h : nextFrame rem = none) : replayGo gen fuel rem c sp kd u = (kd, u) := by
  cases fuel with
  | zero => rfl
  | succ f => simp only [replayGo, h]

theorem replayGo_skip (gen fuel : Nat) (rem chunk rest : Str) (c sp : Nat) (kd : KD)
    (u : Nat) (hnf : nextFrame rem = some (chunk, rest)) (hd : deserialize chunk = none) :
    replayGo gen (fuel + 1) rem c sp kd u
      = replayGo gen fuel rest (c + chunk.length) sp kd u := by
  simp only [replayGo, hnf, hd]

theorem replayGo_set (gen fuel : Nat) (rem chunk rest : Str) (c sp : Nat) (kd : KD)
    (u : Nat) (k v : Str) (hnf : nextFrame rem = some (chunk, rest))
    (hd : deserialize chunk = some (.set k v)) :
    replayGo gen (fuel + 1) rem c sp kd u
      = replayGo gen fuel rest (c + chunk.length) (c + chunk.length)
          (kdInsert k ⟨gen, sp, c + chunk.length - sp⟩ kd)
          (u + (match kdLookup k kd with
                | some o => o.len
                | none => 0)) := by
  simp only [replayGo, hnf, hd]

theorem replayGo_rm (gen fuel : Nat) (rem chunk rest : Str) (c sp : Nat) (kd : KD)
    (u : Nat) (k : Str) (hnf : nextFrame rem = some (chunk, rest))
    (hd : deserialize chunk = some (.rm k)) :
    replayGo gen (fuel + 1) rem c sp kd u
      = replayGo gen fuel rest (c + chunk.length) (c + chunk.length) (kdErase k kd)
          (u + (match kdLookup k kd with
                | some o => o.len
                | none => 0)) := by
  simp only [replayGo, hnf, hd]


/-! ## Invariant machinery -/


theorem copyLoop_spec (files : Nat → Option Str) (newIdx : Nat) :
    ∀ (l : KD) (off : Nat),
    (∀ e ∈ l, ∃ c, files e.2.logIdx = some c) →
    (copyLoop files newIdx l off).2.2 = none ∧
    ((copyLoop files newIdx l off).1.map Prod.fst = l.map Prod.fst) ∧
    ∀ k pos c, kdLookup k l = some pos → files pos.logIdx = some c →
      ∃ startN, kdLookup k (copyLoop files newIdx l off).1
          = some ⟨newIdx, startN, (sliceAt c pos.startingPos pos.len).length⟩ ∧
        off ≤ startN ∧
        startN + (sliceAt c pos.startingPos pos.len).length
          ≤ off + (copyLoop files newIdx l off).2.1.length ∧
        sliceAt (copyLoop files newIdx l off).2.1 (startN - off)
            (sliceAt c pos.startingPos pos.len).length
          = sliceAt c pos.startingPos pos.len := by
  intro l
  induction l with
  | nil =>
    intro off _
    refine ⟨rfl, rfl, ?_⟩
    intro k pos c hk
    simp [kdLookup] at hk
  | cons e rest ih =>
    intro off hpre
    obtain ⟨k0, pos0⟩ := e
    obtain ⟨c0, hc0⟩ := hpre (k0, pos0) (by simp)
    have hpre' : ∀ e ∈ rest, ∃ c, files e.2.logIdx = some c :=
      fun e he => hpre e (by simp [he])
    have hbl : (sliceAt c0 pos0.startingPos pos0.len).length
        + (off + (sliceAt c0 pos0.startingPos pos0.len).length) =
        (sliceAt c0 pos0.startingPos pos0.len).length
        + (off + (sliceAt c0 pos0.startingPos pos0.len).length) := rfl
    obtain ⟨iherr, ihkeys, ihmain⟩ :=
      ih (off + (sliceAt c0 pos0.startingPos pos0.len).length) hpre'
    have hunf : copyLoop files newIdx ((k0, pos0) :: rest) off
        = ((k0, ⟨newIdx, off, (sliceAt c0 pos0.startingPos pos0.len).length⟩) ::
            (copyLoop files newIdx rest
              (off + (sliceAt c0 pos0.startingPos pos0.len).length)).1,
           sliceAt c0 pos0.startingPos pos0.len ++
            (copyLoop files newIdx rest
              (off + (sliceAt c0 pos0.startingPos pos0.len).length)).2.1,
           (copyLoop files newIdx rest
              (off + (sliceAt c0 pos0.startingPos pos0.len).length)).2.2) := by
      simp only [copyLoop, hc0]
    rw [hunf]
    refine ⟨iherr, by simpa using ihkeys, ?_⟩
    intro k pos c hk hc
    by_cases h0 : k0 = k
    · subst h0
      simp only [kdLookup, if_pos rfl] at hk
      obtain rfl : pos0 = pos := by injection hk
      obtain rfl : c0 = c := by rw [hc0] at hc; injection hc
      refine ⟨off, ?_, le_rfl, ?_, ?_⟩
      · simp [kdLookup]
      · simp only [List.length_append]
        omega
      · simp only [Nat.sub_self]
        unfold sliceAt
        rw [List.drop_zero, List.take_left]
    · simp only [kdLookup, if_neg h0] at hk
      obtain ⟨startN, ihlk, ihoff, ihbound, ihslice⟩ := ihmain k pos c hk hc
      refine ⟨startN, ?_, by omega, ?_, ?_⟩
      · simp [kdLookup, h0, ihlk]
      · simp only [List.length_append]
        omega
      · have hsplitn : startN - off
            = (sliceAt c0 pos0.startingPos pos0.len).length +
              (startN - (off + (sliceAt c0 pos0.startingPos pos0.len).length)) := by
          omega
        rw [hsplitn]
        unfold sliceAt
        rw [List.drop_append]
        exact ihslice



theorem deleteLoop_untouched : ∀ (count : Nat) (files : Nat → Option Str) (i j : Nat),
    (j < i ∨ i + count ≤ j) → (deleteLoop files i count).1 j = files j := by
  intro count
  induction count with
  | zero => intro files i j _; rfl
  | succ c ih =>
    intro files i j hj
    cases hf : files i with
    | none => simp only [deleteLoop, hf]
    | some x =>
      simp only [deleteLoop, hf]
      rw [ih (delFile files i) (i + 1) j (by omega)]
      unfold delFile
      rw [if_neg (by omega)]

theorem deleteLoop_ok_deleted : ∀ (count : Nat) (files : Nat → Option Str) (i : Nat),
    (deleteLoop files i count).2 = none →
    ∀ j, i ≤ j → j < i + count → (deleteLoop files i count).1 j = none := by
  intro count
  induction count with
  | zero => intro files i _ j h1 h2; omega
  | succ c ih =>
    intro files i hok j h1 h2
    cases hf : files i with
    | none => simp [deleteLoop, hf] at hok
    | some x =>
      simp only [deleteLoop, hf] at hok ⊢
      by_cases hji : j = i
      · subst hji
        rw [deleteLoop_untouched c (delFile files j) (j + 1) j (by omega)]
        unfold delFile
        rw [if_pos rfl]
      · exact ih (delFile files i) (i + 1) hok j (by omega) (by omega)

theorem deleteLoop_missing (files : Nat → Option Str) (i count : Nat)
    (h : files i = none) (hc : 1 ≤ count) : deleteLoop files i count = (files, some .io) := by
  cases count with
  | zero => omega
  | succ c => simp only [deleteLoop, h]



theorem kdLookup_of_mem_nodup (l : KD) (k : Str) (p : CommandPos)
    (hnd : (l.map Prod.fst).Nodup) (hm : (k, p) ∈ l) : kdLookup k l = some p := by
  induction l with
  | nil => simp at hm
  | cons e rest ih =>
    obtain ⟨k0, p0⟩ := e
    simp only [List.map_cons, List.nodup_cons] at hnd
    rcases List.mem_cons.mp hm with he | hm'
    · obtain ⟨rfl, rfl⟩ := Prod.mk.injEq .. ▸ he
      simp [kdLookup]
    · have hne : k0 ≠ k := by
        rintro rfl
        exact hnd.1 (by simpa using List.mem_map_of_mem Prod.fst hm')
      simp only [kdLookup, if_neg hne]
      exact ih hnd.2 hm'

theorem kdLookup_some_of_mem_keys (l : KD) (k : Str) (hm : k ∈ l.map Prod.fst) :
    ∃ p, kdLookup k l = some p := by
  induction l with
  | nil => simp at hm
  | cons e rest ih =>
    obtain ⟨k0, p0⟩ := e
    by_cases h0 : k0 = k
    · exact ⟨p0, by simp [kdLookup, h0]⟩
    · simp only [List.map_cons, List.mem_cons] at hm
      rcases hm with rfl | hm'
      · exact absurd rfl h0
      · obtain ⟨p, hp⟩ := ih hm'
        exact ⟨p, by simp [kdLookup, h0, hp]⟩



theorem setFile_self (f : Nat → Option Str) (g : Nat) (c : Str) : setFile f g c g = some c := by
  unfold setFile
  rw [if_pos rfl]

theorem setFile_ne (f : Nat → Option Str) (g : Nat) (c : Str) (g' : Nat) (h : g' ≠ g) :
    setFile f g c g' = f g' := by
  unfold setFile
  rw [if_neg h]

theorem delFile_self (f : Nat → Option Str) (g : Nat) : delFile f g g = none := by
  unfold delFile
  rw [if_pos rfl]

theorem delFile_ne (f : Nat → Option Str) (g : Nat) (g' : Nat) (h : g' ≠ g) :
    delFile f g g' = f g' := by
  unfold delFile
  rw [if_neg h]



theorem copyLoop_err (read : Nat → Option Str) (newIdx : Nat) :
    ∀ (l : KD) (off : Nat),
    (copyLoop read newIdx l off).2.2 = none ∨
    (copyLoop read newIdx l off).2.2 = some .io := by
  intro l
  induction l with
  | nil => intro off; left; rfl
  | cons e rest ih =>
    intro off
    obtain ⟨k0, pos0⟩ := e
    cases hr : read pos0.logIdx with
    | none =>
      right
      simp only [copyLoop, hr]
    | some c =>
      simp only [copyLoop, hr]
      exact ih _

theorem readGen_eq (s : Store) (g : Nat) :
    readGen s g = match s.cache g with
      | some c => some c
      | none => s.files g := rfl

theorem compactionOp_fail_io (s : Store) (h1 : s.files 1 = none)
    (hc : 1 ≤ s.compLogIdx) : (compactionOp s).1 = some .io := by
  rcases copyLoop_err (readGen s) (s.compLogIdx + 1) s.keyDir 0 with herr | herr
  · have h1' : setFile s.files (s.compLogIdx + 1)
        (writeAt ((s.files (s.compLogIdx + 1)).getD []) 0
          (copyLoop (readGen s) (s.compLogIdx + 1) s.keyDir 0).2.1) 1 = none := by
      rw [setFile_ne _ _ _ _ (by omega), h1]
    have hdel := deleteLoop_missing _ 1 (s.compLogIdx + 1 - 1) h1' (by omega)
    simp only [compactionOp]
    rw [herr]
    simp only []
    rw [hdel]
  · simp only [compactionOp]
    rw [herr]

theorem compactionOp_eq_ok (s : Store) (f2 : Nat → Option Str)
    (herr : (copyLoop (readGen s) (s.compLogIdx + 1) s.keyDir 0).2.2 = none)
    (hdel : deleteLoop
        (setFile s.files (s.compLogIdx + 1)
          (writeAt ((s.files (s.compLogIdx + 1)).getD []) 0
            (copyLoop (readGen s) (s.compLogIdx + 1) s.keyDir 0).2.1))
        1 (s.compLogIdx + 1 - 1) = (f2, none)) :
    compactionOp s = (none,
      { files := setFile f2 (s.compLogIdx + 2) ((f2 (s.compLogIdx + 2)).getD [])
        cache := fun g =>
          if g = s.compLogIdx + 1 then
            match s.cache (s.compLogIdx + 1) with
            | some c => some (writeAt c 0
                (copyLoop (readGen s) (s.compLogIdx + 1) s.keyDir 0).2.1)
            | none => none
          else s.cache g
        keyDir := (copyLoop (readGen s) (s.compLogIdx + 1) s.keyDir 0).1
        logIdx := s.logIdx
        compLogIdx := s.compLogIdx + 2
        writerFile := s.compLogIdx + 2
        writerPos := 0
        filePos := 0
        uncompacted := 0 }) := by
  simp only [compactionOp]
  rw [herr]
  simp only []
  rw [hdel]

theorem initStore_inv : Inv initStore := by
  constructor
  · rfl
  · rfl
  · rfl
  · rfl
  · refine ⟨[], rfl, rfl, rfl, ?_⟩
    intro k pos hlk
    cases hlk
  · intro g hg
    constructor
    · show (if g = 1 then some [] else none) = none
      rw [if_neg hg]
    · show (if g = 1 then some [] else none) = none
      rw [if_neg hg]
  · exact List.nodup_nil

theorem eraseOnly_inv (k : Str) (s : Store) (h : Inv s) :
    Inv { s with keyDir := kdErase k s.keyDir } := by
  obtain ⟨c, hf1, hc1, hfp, hent⟩ := h.store1
  constructor
  · exact h.idx
  · exact h.cidx
  · exact h.wfile
  · exact h.sync
  · dsimp only
    refine ⟨c, hf1, hc1, hfp, ?_⟩
    intro k' pos hlk
    by_cases hk : k' = k
    · subst hk
      rw [kdLookup_erase_self] at hlk
      cases hlk
    · rw [kdLookup_erase_ne k k' _ hk] at hlk
      exact hent k' pos hlk
  · exact h.others
  · dsimp only
    exact kdErase_nodup _ _ h.nodup

theorem setStep_inv (k v : Str) (s : Store) (u : Nat) (h : Inv s) :
    Inv { s with
          files := (writeActive s (ser (.set k v))).1,
          cache := (writeActive s (ser (.set k v))).2,
          keyDir := kdInsert k ⟨s.logIdx, s.writerPos,
            s.writerPos + (ser (.set k v)).length - s.writerPos⟩ s.keyDir,
          writerPos := s.writerPos + (ser (.set k v)).length,
          filePos := s.filePos + (ser (.set k v)).length,
          uncompacted := u } ∧
    getFn k { s with
          files := (writeActive s (ser (.set k v))).1,
          cache := (writeActive s (ser (.set k v))).2,
          keyDir := kdInsert k ⟨s.logIdx, s.writerPos,
            s.writerPos + (ser (.set k v)).length - s.writerPos⟩ s.keyDir,
          writerPos := s.writerPos + (ser (.set k v)).length,
          filePos := s.filePos + (ser (.set k v)).length,
          uncompacted := u } = .ok (some v) := by
  obtain ⟨c, hf1, hc1, hfp, hent⟩ := h.store1
  have hwp : s.writerPos = c.length := by rw [h.sync, hfp]
  have hwrite : writeAt ((s.files s.writerFile).getD []) s.filePos (ser (.set k v))
      = c ++ ser (.set k v) := by
    rw [h.wfile, hf1]
    show writeAt c s.filePos (ser (.set k v)) = _
    rw [hfp, writeAt_append]
  have hfc1 : (writeActive s (ser (.set k v))).1 1 = some (c ++ ser (.set k v)) := by
    show setFile s.files s.writerFile
        (writeAt ((s.files s.writerFile).getD []) s.filePos (ser (.set k v))) 1 = _
    rw [hwrite, h.wfile, setFile_self]
  have hcc1 : (writeActive s (ser (.set k v))).2 1 = some (c ++ ser (.set k v)) := by
    show (if 1 = s.writerFile then
            match s.cache s.writerFile with
            | some c0 => some (writeAt c0 s.filePos (ser (.set k v)))
            | none => none
          else s.cache 1) = _
    rw [h.wfile, if_pos rfl, hc1]
    show some (writeAt c s.filePos (ser (.set k v))) = _
    rw [hfp, writeAt_append]
  have hfcg : ∀ g, g ≠ 1 → (writeActive s (ser (.set k v))).1 g = none := by
    intro g hg
    show setFile s.files s.writerFile
        (writeAt ((s.files s.writerFile).getD []) s.filePos (ser (.set k v))) g = none
    rw [h.wfile, setFile_ne _ _ _ _ hg]
    exact (h.others g hg).1
  have hccg : ∀ g, g ≠ 1 → (writeActive s (ser (.set k v))).2 g = none := by
    intro g hg
    show (if g = s.writerFile then
            match s.cache s.writerFile with
            | some c0 => some (writeAt c0 s.filePos (ser (.set k v)))
            | none => none
          else s.cache g) = none
    rw [h.wfile, if_neg hg]
    exact (h.others g hg).2
  have hlen : s.writerPos + (ser (.set k v)).length - s.writerPos
      = (ser (.set k v)).length := by omega
  have hsliceK : sliceAt (c ++ ser (.set k v)) s.writerPos
      (s.writerPos + (ser (.set k v)).length - s.writerPos) = ser (.set k v) := by
    rw [hlen, hwp, sliceAt_last]
  have hread : readGen { s with
      files := (writeActive s (ser (.set k v))).1,
      cache := (writeActive s (ser (.set k v))).2,
      keyDir := kdInsert k ⟨s.logIdx, s.writerPos,
        s.writerPos + (ser (.set k v)).length - s.writerPos⟩ s.keyDir,
      writerPos := s.writerPos + (ser (.set k v)).length,
      filePos := s.filePos + (ser (.set k v)).length,
      uncompacted := u } s.logIdx = some (c ++ ser (.set k v)) := by
    unfold readGen
    dsimp only
    rw [h.idx, hcc1]
  constructor
  · constructor
    · exact h.idx
    · exact h.cidx
    · exact h.wfile
    · dsimp only
      rw [h.sync]
    · dsimp only
      refine ⟨c ++ ser (.set k v), hfc1, hcc1, ?_, ?_⟩
      · rw [List.length_append, hfp]
      · intro k' pos hlk
        by_cases hk : k' = k
        · subst hk
          rw [kdLookup_insert_self] at hlk
          obtain rfl : pos = ⟨s.logIdx, s.writerPos,
              s.writerPos + (ser (.set k' v)).length - s.writerPos⟩ :=
            Option.some.inj hlk.symm
          refine ⟨h.idx, v, ?_, hsliceK⟩
          show s.writerPos + (s.writerPos + (ser (.set k' v)).length - s.writerPos)
              ≤ (c ++ ser (.set k' v)).length
          rw [List.length_append]
          omega
        · rw [kdLookup_insert_ne k k' _ _ hk] at hlk
          obtain ⟨hg1, v', hbound, hslice⟩ := hent k' pos hlk
          refine ⟨hg1, v', ?_, ?_⟩
          · rw [List.length_append]
            omega
          · rw [sliceAt_append _ _ _ _ hbound]
            exact hslice
    · intro g hg
      exact ⟨hfcg g hg, hccg g hg⟩
    · dsimp only
      exact kdInsert_nodup _ _ _ h.nodup
  · unfold getFn
    simp only [kdLookup_insert_self]
    simp only [hread, hsliceK, deserialize_ser]

theorem copy_pre_of_inv (s : Store) (h : Inv s) :
    ∀ e ∈ s.keyDir, ∃ c0, readGen s e.2.logIdx = some c0 := by
  obtain ⟨c, hf1, hc1, hfp, hent⟩ := h.store1
  intro e he
  have hlk : kdLookup e.1 s.keyDir = some e.2 :=
    kdLookup_of_mem_nodup s.keyDir e.1 e.2 h.nodup (by simpa using he)
  obtain ⟨hg1, _⟩ := hent e.1 e.2 hlk
  refine ⟨c, ?_⟩
  rw [hg1]
  unfold readGen
  rw [hc1]

theorem compaction_inv_getFn (s : Store) (h : Inv s) (k : Str) :
    getFn k (compactionOp s).2 = getFn k s := by
  obtain ⟨c, hf1, hc1, hfp, hent⟩ := h.store1
  have hc2 : s.compLogIdx = 1 := h.cidx
  obtain ⟨herr, hkeys, hmain⟩ :=
    copyLoop_spec (readGen s) (s.compLogIdx + 1) s.keyDir 0 (copy_pre_of_inv s h)
  have hfAC1 : setFile s.files (s.compLogIdx + 1)
      (writeAt ((s.files (s.compLogIdx + 1)).getD []) 0
        (copyLoop (readGen s) (s.compLogIdx + 1) s.keyDir 0).2.1) 1 = some c := by
    rw [setFile_ne _ _ _ _ (by omega), hf1]
  have hdel : deleteLoop (setFile s.files (s.compLogIdx + 1)
      (writeAt ((s.files (s.compLogIdx + 1)).getD []) 0
        (copyLoop (readGen s) (s.compLogIdx + 1) s.keyDir 0).2.1)) 1 (s.compLogIdx + 1 - 1)
      = (delFile (setFile s.files (s.compLogIdx + 1)
          (writeAt ((s.files (s.compLogIdx + 1)).getD []) 0
            (copyLoop (readGen s) (s.compLogIdx + 1) s.keyDir 0).2.1)) 1, none) := by
    rw [show s.compLogIdx + 1 - 1 = 0 + 1 by omega]
    simp only [deleteLoop, hfAC1]
  have heq := compactionOp_eq_ok s _ herr hdel
  have hkd : (compactionOp s).2.keyDir
      = (copyLoop (readGen s) (s.compLogIdx + 1) s.keyDir 0).1 := by
    rw [heq]
  cases hlk : kdLookup k s.keyDir with
  | none =>
    have hlk2 : kdLookup k (copyLoop (readGen s) (s.compLogIdx + 1) s.keyDir 0).1
        = none := by
      cases hq : kdLookup k (copyLoop (readGen s) (s.compLogIdx + 1) s.keyDir 0).1 with
      | none => rfl
      | some p =>
        have hmem := kdLookup_mem_keys _ _ _ hq
        rw [hkeys] at hmem
        obtain ⟨p', hp'⟩ := kdLookup_some_of_mem_keys _ _ hmem
        rw [hlk] at hp'
        cases hp'
    unfold getFn
    rw [hkd, hlk, hlk2]
  | some pos =>
    obtain ⟨hg1, v, hb, hs⟩ := hent k pos hlk
    have hread : readGen s pos.logIdx = some c := by
      rw [hg1, readGen_eq, hc1]
    obtain ⟨startN, hlkN, _, hbN, hsN⟩ := hmain k pos c hlk hread
    rw [hs] at hlkN hsN
    rw [Nat.sub_zero] at hsN
    have hoth1 := (h.others (s.compLogIdx + 1) (by omega)).1
    have hoth2 := (h.others (s.compLogIdx + 1) (by omega)).2
    have hR : getFn k s = .ok (some v) := by
      unfold getFn
      simp only [hlk, hread, hs, deserialize_ser]
    have hwz : writeAt ([] : Str) 0
        (copyLoop (readGen s) (s.compLogIdx + 1) s.keyDir 0).2.1
        = (copyLoop (readGen s) (s.compLogIdx + 1) s.keyDir 0).2.1 := by
      simp [writeAt]
    have hcacheN : (if s.compLogIdx + 1 = s.compLogIdx + 1 then
          match s.cache (s.compLogIdx + 1) with
          | some c0 => some (writeAt c0 0
              (copyLoop (readGen s) (s.compLogIdx + 1) s.keyDir 0).2.1)
          | none => none
        else s.cache (s.compLogIdx + 1)) = none := by
      rw [if_pos rfl, hoth2]
    have hfilesN : setFile (delFile (setFile s.files (s.compLogIdx + 1)
        (writeAt ((s.files (s.compLogIdx + 1)).getD []) 0
          (copyLoop (readGen s) (s.compLogIdx + 1) s.keyDir 0).2.1)) 1)
        (s.compLogIdx + 2)
        ((delFile (setFile s.files (s.compLogIdx + 1)
          (writeAt ((s.files (s.compLogIdx + 1)).getD []) 0
            (copyLoop (readGen s) (s.compLogIdx + 1) s.keyDir 0).2.1)) 1
          (s.compLogIdx + 2)).getD [])
        (s.compLogIdx + 1)
        = some (copyLoop (readGen s) (s.compLogIdx + 1) s.keyDir 0).2.1 := by
      rw [setFile_ne _ _ _ _ (by omega), delFile_ne _ _ _ (by omega), setFile_self, hoth1]
      show some (writeAt ([] : Str) 0 _) = _
      rw [hwz]
    have hcc : (compactionOp s).2.cache (s.compLogIdx + 1) = none := by
      rw [heq]
      exact hcacheN
    have hff : (compactionOp s).2.files (s.compLogIdx + 1)
        = some (copyLoop (readGen s) (s.compLogIdx + 1) s.keyDir 0).2.1 := by
      rw [heq]
      exact hfilesN
    have hreadN : readGen (compactionOp s).2 (s.compLogIdx + 1)
        = some (copyLoop (readGen s) (s.compLogIdx + 1) s.keyDir 0).2.1 := by
      rw [readGen_eq, hcc, hff]
    rw [hR]
    unfold getFn
    simp only [hkd, hlkN]
    simp only [hreadN, hsN, deserialize_ser]

theorem safeReach_inv (s : Store) (h : SafeReach s) : Inv s := by
  induction h with
  | init => exact initStore_inv
  | @set k v s hs hle ih =>
    have hstep := setStep_inv k v s (s.uncompacted +
      (match kdLookup k s.keyDir with
       | some o => o.len
       | none => 0)) ih
    simp only [setOp]
    rw [if_neg (by omega)]
    exact hstep.1
  | @rmAbsent b k s hs hnone ih =>
    simp only [removeOp, hnone]
    exact ih
  | @rmFail k s hs ih =>
    cases hlk : kdLookup k s.keyDir with
    | none =>
      simp only [removeOp, hlk]
      exact ih
    | some old =>
      have hstep : removeOp true k s
          = (some .io, { s with keyDir := kdErase k s.keyDir }) := by
        simp only [removeOp, hlk, if_true]
      rw [hstep]
      exact eraseOnly_inv k s ih


/-! ## Run lemmas and inversions -/


theorem nextFrame_nil : nextFrame [] = none := rfl

theorem replayGo_run (gen : Nat) : ∀ (rs : List Request) (t : Str) (fuel c sp : Nat)
    (kd : KD) (u : Nat), nextFrame t = none → (serAll rs ++ t).length < fuel →
    replayGo gen fuel (serAll rs ++ t) c sp kd u = replaySpec gen rs c sp kd u := by
  intro rs
  induction rs with
  | nil =>
    intro t fuel c sp kd u ht hf
    simp only [serAll, List.map_nil, List.flatten_nil, List.nil_append]
    rw [replayGo_stop gen fuel t c sp kd u ht]
    rfl
  | cons r rs ih =>
    intro t fuel c sp kd u ht hf
    have harr : serAll (r :: rs) ++ t = ser r ++ (serAll rs ++ t) := by
      simp [serAll]
    rw [harr] at hf ⊢
    have hlser : 1 ≤ (ser r).length := ser_length_pos r
    cases fuel with
    | zero => simp at hf
    | succ fuel =>
      have hnf := nextFrame_ser r (serAll rs ++ t)
      have hlen : (serAll rs ++ t).length < fuel := by
        rw [List.length_append] at hf
        omega
      cases r with
      | set k v =>
        rw [replayGo_set gen fuel _ _ _ c sp kd u k v hnf (deserialize_ser _)]
        rw [ih t fuel _ _ _ _ ht hlen]
        rfl
      | rm k =>
        rw [replayGo_rm gen fuel _ _ _ c sp kd u k hnf (deserialize_ser _)]
        rw [ih t fuel _ _ _ _ ht hlen]
        rfl
      | get k =>
        have hstep : replayGo gen (fuel + 1) (ser (.get k) ++ (serAll rs ++ t)) c sp kd u
            = replayGo gen fuel (serAll rs ++ t) (c + (ser (.get k)).length)
                (c + (ser (.get k)).length) kd u := by
          simp only [replayGo, hnf, deserialize_ser]
        rw [hstep, ih t fuel _ _ _ _ ht hlen]
        rfl

theorem replayFile_run (gen : Nat) (rs : List Request) (t : Str) (kd : KD) (u : Nat)
    (ht : nextFrame t = none) :
    replayFile gen (serAll rs ++ t) kd u = replaySpec gen rs 0 0 kd u := by
  unfold replayFile
  exact replayGo_run gen rs t _ 0 0 kd u ht (by omega)



theorem foldr_max_ge (l : List Nat) : ∀ x ∈ l, x ≤ l.foldr max 0 := by
  induction l with
  | nil => simp
  | cons a t ih =>
    intro x hx
    rcases List.mem_cons.mp hx with rfl | hx'
    · simp only [List.foldr_cons]
      exact le_max_left _ _
    · simp only [List.foldr_cons]
      exact le_max_of_le_right (ih x hx')

theorem sorted_getLast_foldr : ∀ (l : List Nat), l.Sorted (· ≤ ·) →
    l.getLast?.getD 0 = l.foldr max 0 := by
  intro l
  induction l with
  | nil => intro _; rfl
  | cons a t ih =>
    intro hs
    cases t with
    | nil => simp
    | cons b t2 =>
      have hs' : (b :: t2).Sorted (· ≤ ·) := hs.of_cons
      have hle : ∀ x ∈ b :: t2, a ≤ x := (List.sorted_cons.mp hs).1
      rw [List.getLast?_cons_cons, ih hs']
      simp only [List.foldr_cons]
      have h1 : a ≤ (b :: t2).foldr max 0 :=
        le_trans (hle b (by simp)) (foldr_max_ge (b :: t2) b (by simp))
      simp only [List.foldr_cons] at h1 ⊢
      omega

theorem foldr_max_perm (l1 l2 : List Nat) (h : l1.Perm l2) :
    l1.foldr max 0 = l2.foldr max 0 := by
  induction h with
  | nil => rfl
  | cons a _ ih => simp [List.foldr_cons, ih]
  | swap x y l => simp only [List.foldr_cons]; omega
  | trans _ _ ih1 ih2 => rw [ih1, ih2]

theorem sort_getLast_max (l : List Nat) :
    (List.insertionSort (· ≤ ·) l).getLast?.getD 0 = l.foldr max 0 := by
  rw [sorted_getLast_foldr _ (List.sorted_insertionSort (· ≤ ·) l)]
  exact foldr_max_perm _ _ (List.perm_insertionSort (· ≤ ·) l)



theorem compactionOp_ok_inv (s : Store) (hok : (compactionOp s).1 = none) :
    (compactionOp s).2.compLogIdx = s.compLogIdx + 2 ∧
    (compactionOp s).2.uncompacted = 0 ∧
    (compactionOp s).2.files (s.compLogIdx + 2) ≠ none ∧
    (compactionOp s).2.files (s.compLogIdx + 1) ≠ none ∧
    (∀ g, 1 ≤ g → g < s.compLogIdx + 1 → (compactionOp s).2.files g = none) := by
  revert hok
  simp only [compactionOp]
  cases herr : (copyLoop (readGen s) (s.compLogIdx + 1) s.keyDir 0).2.2 with
  | some e => intro hok; exact absurd hok (by simp)
  | none =>
    cases hdel : (deleteLoop (setFile s.files (s.compLogIdx + 1)
        (writeAt ((s.files (s.compLogIdx + 1)).getD []) 0
          (copyLoop (readGen s) (s.compLogIdx + 1) s.keyDir 0).2.1))
        1 (s.compLogIdx + 1 - 1)) with
    | mk f2 e2 =>
      cases e2 with
      | some e => intro hok; exact absurd hok (by simp [hdel])
      | none =>
        intro _
        dsimp only
        refine ⟨rfl, rfl, ?_, ?_, ?_⟩
        · rw [setFile_self]
          simp
        · rw [setFile_ne _ _ _ _ (by omega)]
          have hu := deleteLoop_untouched (s.compLogIdx + 1 - 1)
            (setFile s.files (s.compLogIdx + 1)
              (writeAt ((s.files (s.compLogIdx + 1)).getD []) 0
                (copyLoop (readGen s) (s.compLogIdx + 1) s.keyDir 0).2.1)) 1
            (s.compLogIdx + 1) (by omega)
          rw [hdel] at hu
          dsimp only at hu
          rw [hu, setFile_self]
          simp
        · intro g hg1 hg2
          rw [setFile_ne _ _ _ _ (by omega)]
          have hd2 : (deleteLoop (setFile s.files (s.compLogIdx + 1)
              (writeAt ((s.files (s.compLogIdx + 1)).getD []) 0
                (copyLoop (readGen s) (s.compLogIdx + 1) s.keyDir 0).2.1)) 1
                (s.compLogIdx + 1 - 1)).2 = none := by
            rw [hdel]
          have := deleteLoop_ok_deleted (s.compLogIdx + 1 - 1)
            (setFile s.files (s.compLogIdx + 1)
              (writeAt ((s.files (s.compLogIdx + 1)).getD []) 0
                (copyLoop (readGen s) (s.compLogIdx + 1) s.keyDir 0).2.1)) 1 hd2 g hg1
            (by omega)
          rw [hdel] at this
          exact this


/-! ## The claims -/


/-- C1 counterexample: reachable states in which set(k, v) followed
immediately by get(k) does not return Ok(Some(v)). After the first
compaction (demo3) the writer sits on 3.log, but `set` stamps its entry
with the FROZEN per-handle `KvStore.log_idx` 1 (src/engine/kv.rs:209),
so get resolves the entry through the reader's still-open handle of the
deleted 1.log and returns the OLD value x instead of the just-written w.
After a remove (rmStore) the tombstone went through the inner
`buf_writer.writer` (src/engine/kv.rs:252) without advancing the wrapper
position, so the next set records a byte range that covers the
tombstone: get returns the UnexpectedCommandType error. -/
theorem C1_counterexample :
    Reachable demo3 ∧
    (setOp keyA valW demo3).1 = none ∧
    getFn keyA (setOp keyA valW demo3).2 = .ok (some valX) ∧
    valX ≠ valW ∧
    Reachable rmStore ∧
    (setOp keyA valX rmStore).1 = none ∧
    getFn keyA (setOp keyA valX rmStore).2
      = .error (.unexpectedCommandType keyA) := by
  refine ⟨?_, by decide, by decide, by decide, ?_, by decide, by decide⟩
  · exact Reachable.set keyA valX (Reachable.set keyA valX
      (Reachable.set keyA valX Reachable.init))
  · exact Reachable.rm false key6 (Reachable.set key6 valW Reachable.init)

/-- C1 amended: in every SAFE-regime reachable state — reached from a
store opened on an empty directory by sets that keep the uncompacted
counter at or below the threshold and by removes that persist no
tombstone — executing set(k, v) and then get(k) with no other
intervening engine operation returns Ok(Some(v)); this still covers the
case where the set itself triggers the store's FIRST compaction. -/
theorem C1_amended (k v : Str) (s : Store) (h : SafeReach s) :
    getFn k (setOp k v s).2 = .ok (some v) := by
  have hinv := safeReach_inv s h
  obtain ⟨hinv1, hget1⟩ := setStep_inv k v s (s.uncompacted +
    (match kdLookup k s.keyDir with
     | some o => o.len
     | none => 0)) hinv
  simp only [setOp]
  split
  · rw [compaction_inv_getFn _ hinv1 k]
    exact hget1
  · exact hget1

/-- Witness for C1 amended at the freshly opened store. -/
theorem C1_amended_witness :
    getFn keyA (setOp keyA valX initStore).2 = .ok (some valX) :=
  C1_amended keyA valX initStore SafeReach.init

/-- C2 counterexample: reachable states in which a live directory entry
does not point at a Set record of an existing file. In desyncStore
(set k6; rm k6; set a — the tombstone bypassed the positioned wrapper)
the entry for a records the range [20, 35) of 1.log, which holds exactly
the 15-byte tombstone of k6, so get(a) returns the supposedly
unreachable UnexpectedCommandType error. In demo4 (one set past the
first compaction) the entry for a carries the frozen generation 1 while
1.log no longer exists on disk. -/
theorem C2_counterexample :
    Reachable desyncStore ∧
    kdLookup keyA desyncStore.keyDir = some ⟨1, 20, 15⟩ ∧
    deserialize (sliceAt ((desyncStore.files 1).getD []) 20 15)
      = some (.rm key6) ∧
    getFn keyA desyncStore = .error (.unexpectedCommandType keyA) ∧
    Reachable demo4 ∧
    kdLookup keyA demo4.keyDir = some ⟨1, 0, 15⟩ ∧
    demo4.files 1 = none := by
  refine ⟨?_, by decide, by decide, by decide, ?_, by decide, by decide⟩
  · exact Reachable.set keyA valX (Reachable.rm false key6
      (Reachable.set key6 valW Reachable.init))
  · exact Reachable.set keyA valX (Reachable.set keyA valX (Reachable.set keyA valX
      (Reachable.set keyA valX Reachable.init)))

/-- C2 amended: in every SAFE-regime reachable state (no completed
compaction, no persisted tombstone since open), each live key-directory
entry (k -> (g, off, len)) points into an existing file g.log whose byte
range [off, off+len) is exactly the serialization of one Set record with
key k, and get never resolves a directory entry to a non-Set record, so
the UnexpectedCommandType error is unreachable there. -/
theorem C2_amended (s : Store) (h : SafeReach s) :
    (∀ k pos, kdLookup k s.keyDir = some pos →
      ∃ content v, s.files pos.logIdx = some content ∧
        sliceAt content pos.startingPos pos.len = ser (.set k v)) ∧
    (∀ k key, getFn k s ≠ .error (.unexpectedCommandType key)) := by
  have hinv := safeReach_inv s h
  obtain ⟨c, hf1, hc1, hfp, hent⟩ := hinv.store1
  constructor
  · intro k pos hlk
    obtain ⟨hg1, v, hb, hs⟩ := hent k pos hlk
    refine ⟨c, v, ?_, hs⟩
    rw [hg1]
    exact hf1
  · intro k key
    cases hlk : kdLookup k s.keyDir with
    | none => simp [getFn, hlk]
    | some pos =>
      obtain ⟨hg1, v, hb, hs⟩ := hent k pos hlk
      have hread : readGen s pos.logIdx = some c := by
        rw [hg1]
        unfold readGen
        rw [hc1]
      simp [getFn, hlk, hread, hs, deserialize_ser]

/-- Witness for C2 amended at a concrete safe-regime store. -/
theorem C2_amended_witness :
    (∀ k pos, kdLookup k demo1.keyDir = some pos →
      ∃ content v, demo1.files pos.logIdx = some content ∧
        sliceAt content pos.startingPos pos.len = ser (.set k v)) ∧
    (∀ k key, getFn k demo1 ≠ .error (.unexpectedCommandType key)) :=
  C2_amended demo1 (SafeReach.set keyA valX SafeReach.init (by decide))

/-- C10: in the concurrent engine, remove(k) on a present key deletes k
from the in-memory key directory before appending the tombstone, so when
the tombstone append/flush fails the call returns the I/O error with k
already gone: a subsequent get(k) returns Ok(None) although no tombstone
was persisted (files and writer position are untouched). -/
theorem C10_remove_failure (k : Str) (s : Store) (p : CommandPos)
    (h : kdLookup k s.keyDir = some p) :
    (removeOp true k s).1 = some .io ∧
    kdLookup k (removeOp true k s).2.keyDir = none ∧
    getFn k (removeOp true k s).2 = .ok none ∧
    (removeOp true k s).2.files = s.files ∧
    (removeOp true k s).2.writerPos = s.writerPos := by
  have hstep : removeOp true k s
      = (some .io, { s with keyDir := kdErase k s.keyDir }) := by
    simp only [removeOp, h, if_true]
  rw [hstep]
  refine ⟨rfl, kdLookup_erase_self k s.keyDir, ?_, rfl, rfl⟩
  unfold getFn
  dsimp only
  rw [kdLookup_erase_self]

/-- Witness for C10: removing the only key of a one-entry store with a
failing tombstone write. -/
theorem C10_remove_failure_witness :
    (removeOp true keyA demo1).1 = some .io ∧
    kdLookup keyA (removeOp true keyA demo1).2.keyDir = none ∧
    getFn keyA (removeOp true keyA demo1).2 = .ok none ∧
    (removeOp true keyA demo1).2.files = demo1.files ∧
    (removeOp true keyA demo1).2.writerPos = demo1.writerPos :=
  C10_remove_failure keyA demo1 ⟨1, 0, 15⟩ (by decide)



/-- C3 counterexample: the handler's Set arm writes no response at all
(it only logs), so a successfully decoded and successfully executed SET
request is answered with zero response objects, not one; the claimed
response shape for SET is never produced. -/
theorem C3_counterexample :
    (handleClientReq (.set keyA valX) initStore).1 = [] ∧
    (setOp keyA valX initStore).1 = none := by
  constructor
  · rfl
  · decide

/-- C3 amended: the handler writes exactly one response only for RM
requests and for GET requests whose engine call succeeds; a GET miss is
answered with error = Some "Key not found" and result = "" (rendered
exactly as the claimed JSON object), a GET hit with the value; a SET
request is answered with no response object, and a GET whose engine call
fails is also answered with nothing. -/
theorem C3_amended :
    (∀ k v s, (handleClientReq (.set k v) s).1 = []) ∧
    (∀ k s, getFn k s = .ok none →
      (handleClientReq (.get k) s).1 = [{ error := some msgKeyNotFound, result := [] }]) ∧
    (∀ k v s, getFn k s = .ok (some v) →
      (handleClientReq (.get k) s).1 = [{ error := none, result := v }]) ∧
    (∀ k s e, getFn k s = .error e → (handleClientReq (.get k) s).1 = []) ∧
    (∀ k s, (handleClientReq (.rm k) s).1.length = 1) ∧
    respRender { error := some msgKeyNotFound, result := [] }
      = [123, 34, 101, 114, 114, 111, 114, 34, 58, 34, 75, 101, 121, 32, 110, 111,
         116, 32, 102, 111, 117, 110, 100, 34, 44, 34, 114, 101, 115, 117, 108,
         116, 34, 58, 34, 34, 125] := by
  refine ⟨fun k v s => rfl, ?_, ?_, ?_, fun k s => rfl, by decide⟩
  · intro k s hk
    simp [handleClientReq, hk]
  · intro k v s hk
    simp [handleClientReq, hk]
  · intro k s e hk
    simp [handleClientReq, hk]

/-- Witness for C3 amended: a GET miss on the empty store produces the
single Key-not-found response. -/
theorem C3_amended_witness :
    (handleClientReq (.get keyA) initStore).1
      = [{ error := some msgKeyNotFound, result := [] }] :=
  C3_amended.2.1 keyA initStore rfl

/-- C4 counterexample: the older engine's remove (src/kv.rs:257-269)
serializes and flushes the tombstone before consulting the directory, so
remove of an absent key returns KeyNotFound but HAS appended bytes to
the active log: the writer position grows by the tombstone's length and
the active file's bytes change. -/
theorem C4_counterexample :
    (oldRemove keyA oldInit).1 = some .keyNotFound ∧
    (oldRemove keyA oldInit).2.writerPos ≠ oldInit.writerPos ∧
    (oldRemove keyA oldInit).2.files 1 ≠ oldInit.files 1 := by
  refine ⟨by decide, by decide, by decide⟩

/-- C4 amended: remove(k) for absent k returns KeyNotFound and leaves
get unchanged for every key in both engines; the concurrent engine
(src/engine/kv.rs) appends nothing and leaves the state untouched, but
the older engine (src/kv.rs) first appends a tombstone record to the
active log (advancing the writer by its length) and only then fails —
its key directory and the result of get are still unchanged provided the
writer sits at the end of the active file and live entries lie within
their files. -/
theorem C4_amended :
    (∀ b k s, kdLookup k s.keyDir = none → removeOp b k s = (some .keyNotFound, s)) ∧
    (∀ b k k' s, kdLookup k s.keyDir = none →
      getFn k' (removeOp b k s).2 = getFn k' s) ∧
    (∀ k s, kdLookup k s.keyDir = none →
      (oldRemove k s).1 = some .keyNotFound ∧
      (oldRemove k s).2.keyDir = s.keyDir ∧
      (oldRemove k s).2.writerPos = s.writerPos + (jsonSer (.remove k)).length) ∧
    (∀ k k' s c0, kdLookup k s.keyDir = none →
      s.files s.logIdx = some c0 → s.writerPos = c0.length →
      (∀ pos c, kdLookup k' s.keyDir = some pos → s.files pos.logIdx = some c →
        pos.startingPos + pos.len ≤ c.length) →
      oldGet k' (oldRemove k s).2 = oldGet k' s) := by
  refine ⟨?_, ?_, ?_, ?_⟩
  · intro b k s h
    simp only [removeOp, h]
  · intro b k k' s h
    simp only [removeOp, h]
  · intro k s h
    simp only [oldRemove, h]
    refine ⟨by trivial, by trivial, by trivial⟩
  · intro k k' s c0 h hact hwp hbounds
    have hwrite : writeAt ((s.files s.logIdx).getD []) s.writerPos (jsonSer (.remove k))
        = c0 ++ jsonSer (.remove k) := by
      rw [hact]
      show writeAt c0 s.writerPos (jsonSer (.remove k)) = _
      rw [hwp, writeAt_append]
    simp only [oldRemove, h]
    unfold oldGet
    dsimp only
    cases hlk : kdLookup k' s.keyDir with
    | none => rfl
    | some pos =>
      dsimp only
      by_cases hg : pos.logIdx = s.logIdx
      · rw [hg, setFile_self, hwrite, hact]
        dsimp only
        have hb := hbounds pos c0 hlk (by rw [hg]; exact hact)
        rw [sliceAt_append _ _ _ _ hb]
      · rw [setFile_ne _ _ _ _ hg]



/-- C5 counterexample: in the reachable store demo4 (one overwrite past
the first compaction), 1.log has already been deleted, and the set that
triggers the second compaction returns an I/O error because
Compactor::compaction's deletion loop (for i in 1..g_snap
{ fs::remove_file(..)? }) propagates the not-found error for 1.log
instead of ignoring it. -/
theorem C5_counterexample :
    Reachable demo4 ∧ demo4.files 1 = none ∧
    (setOp keyA valX demo4).1 = some .io := by
  refine ⟨?_, by decide, by decide⟩
  exact Reachable.set keyA valX (Reachable.set keyA valX
    (Reachable.set keyA valX (Reachable.set keyA valX Reachable.init)))

/-- C5 amended: when Compactor::compaction completes successfully, every
log file with generation in [1, g_snap) has been deleted (g_snap is the
compactor counter's snapshot generation); but the deletion step does NOT
ignore missing files — whenever 1.log is already gone from disk (as it
is after the first successful compaction), compaction fails with the
propagated not-found I/O error. Only the separate compaction loop in
KvServer::start (src/server.rs:153-161) ignores not-found. -/
theorem C5_amended :
    (∀ s, (compactionOp s).1 = none →
      ∀ g, 1 ≤ g → g < s.compLogIdx + 1 → (compactionOp s).2.files g = none) ∧
    (∀ s, s.files 1 = none → 1 ≤ s.compLogIdx → (compactionOp s).1 = some .io) := by
  constructor
  · intro s hok
    exact (compactionOp_ok_inv s hok).2.2.2.2
  · intro s h1 hc
    exact compactionOp_fail_io s h1 hc

/-- Witness for C5 amended: the first compaction on the empty store
succeeds and leaves no generation below its snapshot; the store after
that compaction (demo3, compactor counter 3) fails its next compaction. -/
theorem C5_amended_witness :
    (compactionOp initStore).2.files 1 = none ∧
    (compactionOp demo3).1 = some .io := by
  constructor
  · exact C5_amended.1 initStore (by decide) 1 le_rfl (by decide)
  · exact C5_amended.2 demo3 (by decide) (by decide)

/-- C6 counterexample: a log file containing a good Set a record, then a
framed-but-undecodable chunk, then a good Set b record. The claim says
replay stops at the failure and the bytes beyond contribute no
key-directory entries; in fact replay continues and b is live — its
entry even absorbs the skipped chunk's bytes (starting position 15, the
failure point, length 4 + 19). -/
theorem C6_counterexample :
    kdLookup keyB (replayFile 1
        (ser (.set keyA valX) ++ badChunk ++ ser (.set keyB valX)) [] 0).1
      = some ⟨1, 15, 19⟩ := by
  decide

/-- C6 amended: during open-time replay a record that frames but fails
to decode is skipped — it contributes no entry and does not advance
starting_pos — and replay CONTINUES with the following records; replay
stops, ignoring all remaining bytes, only when the framing parser cannot
carve out a further record. In particular a log consisting of decodable
records followed by an unframeable tail replays to exactly the fold of
those records. -/
theorem C6_amended :
    (∀ gen fuel rem chunk rest c sp kd u, nextFrame rem = some (chunk, rest) →
      deserialize chunk = none →
      replayGo gen (fuel + 1) rem c sp kd u
        = replayGo gen fuel rest (c + chunk.length) sp kd u) ∧
    (∀ gen fuel rem c sp kd u, nextFrame rem = none →
      replayGo gen fuel rem c sp kd u = (kd, u)) ∧
    (∀ gen rs t kd u, nextFrame t = none →
      replayFile gen (serAll rs ++ t) kd u = replaySpec gen rs 0 0 kd u) := by
    refine ⟨?_, ?_, ?_⟩
    · intro gen fuel rem chunk rest c sp kd u hnf hd
      exact replayGo_skip gen fuel rem chunk rest c sp kd u hnf hd
    · intro gen fuel rem c sp kd u hnf
      exact replayGo_stop gen fuel rem c sp kd u hnf
    · intro gen rs t kd u ht
      exact replayFile_run gen rs t kd u ht

/-- Witness for C6 amended: the skipped middle chunk of the
counterexample buffer, a stop on pure garbage, and a two-record run. -/
theorem C6_amended_witness :
    replayGo 1 (24 + 1) (badChunk ++ ser (.set keyB valX)) 15 15 [(keyA, ⟨1, 0, 15⟩)] 0
      = replayGo 1 24 (ser (.set keyB valX)) (15 + badChunk.length) 15
          [(keyA, ⟨1, 0, 15⟩)] 0 ∧
    replayGo 1 5 [120, 120] 0 0 [] 7 = ([], 7) ∧
    replayFile 1 (serAll [.set keyA valX] ++ [120]) [] 0
      = replaySpec 1 [.set keyA valX] 0 0 [] 0 := by
  refine ⟨?_, ?_, ?_⟩
  · exact C6_amended.1 1 24 _ badChunk _ 15 15 _ 0 (by decide) (by decide)
  · exact C6_amended.2.1 1 5 _ 0 0 [] 7 (by decide)
  · exact C6_amended.2.2 1 [.set keyA valX] [120] [] 0 (by decide)



/-- C7: KvStore::open sets the active generation to max(existing
generations) + 1 — the fold below is that maximum, and 0 + 1 = 1 when
the directory has no log files — and creates that generation's log file;
a compaction that completes successfully advances the COMPACTOR's
generation counter (`Compactor.log_idx`, the counter this claim is
about; the per-handle copy `KvStore.log_idx` is never updated) by
exactly two, with the snapshot at g + 1 and the new active file at
g + 2, both present on disk. -/
theorem C7_generation_counter :
    (∀ dir, (openStore dir).logIdx = (dir.map Prod.fst).foldr max 0 + 1 ∧
      (openStore dir).files ((dir.map Prod.fst).foldr max 0 + 1) ≠ none) ∧
    (∀ s, (compactionOp s).1 = none →
      (compactionOp s).2.compLogIdx = s.compLogIdx + 2 ∧
      (compactionOp s).2.files (s.compLogIdx + 1) ≠ none ∧
      (compactionOp s).2.files (s.compLogIdx + 2) ≠ none) := by
  constructor
  · intro dir
    constructor
    · simp only [openStore]
      rw [sort_getLast_max]
    · simp only [openStore, sort_getLast_max]
      simp
  · intro s hok
    obtain ⟨h1, _, h3, h4, _⟩ := compactionOp_ok_inv s hok
    exact ⟨h1, h4, h3⟩

/-- Witness for C7: a directory holding only 3.log opens at generation
4; the first compaction of the empty store moves the compactor counter
from 1 to 3 with snapshot 2 and active 3 present. -/
theorem C7_generation_counter_witness :
    (openStore [(3, [])]).logIdx = ([(3, ([] : Str))].map Prod.fst).foldr max 0 + 1 ∧
    (compactionOp initStore).2.compLogIdx = initStore.compLogIdx + 2 ∧
    (compactionOp initStore).2.files (initStore.compLogIdx + 1) ≠ none ∧
    (compactionOp initStore).2.files (initStore.compLogIdx + 2) ≠ none := by
  refine ⟨(C7_generation_counter.1 [(3, [])]).1, ?_⟩
  exact C7_generation_counter.2 initStore (by decide)

/-- C8 counterexample: replaying a log holding Set a x (15 bytes) then
Rm a (9 bytes) leaves uncompacted = 15, the superseded Set record's
length only; the claim demands 15 + 9 = 24, also counting the
tombstone's own length, which the code does not add. -/
theorem C8_counterexample :
    (replayFile 1 (ser (.set keyA valX) ++ ser (.rm keyA)) [] 0).2
        = (ser (.set keyA valX)).length ∧
    (replayFile 1 (ser (.set keyA valX) ++ ser (.rm keyA)) [] 0).2
        ≠ (ser (.set keyA valX)).length + (ser (.rm keyA)).length := by
  constructor
  · decide
  · decide

/-- C8 amended: during open-time replay, every Rm(k) record removes k
from the key directory when k is present and adds ONLY the superseded
entry's length to the uncompacted counter; the tombstone's own length is
not added. The runtime remove path behaves the same way: its tombstone
cost is measured as the wrapper-position delta, which is 0 because the
tombstone write bypasses the positioned wrapper, so it too adds only the
removed entry's length. -/
theorem C8_amended :
    (∀ gen fuel rem chunk rest c sp kd u k, nextFrame rem = some (chunk, rest) →
      deserialize chunk = some (.rm k) →
      replayGo gen (fuel + 1) rem c sp kd u
        = replayGo gen fuel rest (c + chunk.length) (c + chunk.length) (kdErase k kd)
            (u + (match kdLookup k kd with
                  | some o => o.len
                  | none => 0))) ∧
    (∀ gen k v, replayFile gen (ser (.set k v) ++ ser (.rm k)) [] 0
      = ([], (ser (.set k v)).length)) ∧
    (∀ k s old, kdLookup k s.keyDir = some old →
      s.uncompacted + old.len ≤ COMPACTION_THRESHOLD →
      (removeOp false k s).2.uncompacted = s.uncompacted + old.len) := by
  refine ⟨?_, ?_, ?_⟩
  · intro gen fuel rem chunk rest c sp kd u k hnf hd
    exact replayGo_rm gen fuel rem chunk rest c sp kd u k hnf hd
  · intro gen k v
    rw [show ser (.set k v) ++ ser (.rm k) = serAll [.set k v, .rm k] ++ [] by
      simp [serAll]]
    rw [replayFile_run gen _ [] [] 0 rfl]
    simp only [replaySpec, kdInsert, kdErase, kdLookup, if_pos, List.nil_append]
    simp only [Prod.mk.injEq]
    refine ⟨trivial, ?_⟩
    simp
  · intro k s old hlk hle
    simp only [removeOp, hlk, Bool.false_eq_true, if_neg, reduceIte]
    rw [if_neg (by omega)]
    dsimp only
    omega

/-- Witness for C8 amended: the Rm step on a one-entry directory, the
full two-record replay at concrete key and value, and a runtime remove
of the 15-byte entry of demo1 adding exactly 15. -/
theorem C8_amended_witness :
    replayGo 1 (9 + 1) (ser (.rm keyA)) 15 15 [(keyA, ⟨1, 0, 15⟩)] 0
      = replayGo 1 9 [] (15 + (ser (.rm keyA)).length) (15 + (ser (.rm keyA)).length)
          (kdErase keyA [(keyA, ⟨1, 0, 15⟩)])
          (0 + (match kdLookup keyA [(keyA, (⟨1, 0, 15⟩ : CommandPos))] with
                | some o => o.len
                | none => 0)) ∧
    replayFile 1 (ser (.set keyA valX) ++ ser (.rm keyA)) [] 0
      = ([], (ser (.set keyA valX)).length) ∧
    (removeOp false keyA demo1).2.uncompacted = demo1.uncompacted + 15 := by
  refine ⟨?_, ?_, ?_⟩
  · exact C8_amended.1 1 9 (ser (.rm keyA)) (ser (.rm keyA)) [] 15 15 _ 0 keyA
      (by rw [show ser (.rm keyA) = ser (.rm keyA) ++ [] by simp]
          exact nextFrame_ser (.rm keyA) [])
      (deserialize_ser _)
  · exact C8_amended.2.1 1 keyA valX
  · exact C8_amended.2.2 keyA demo1 ⟨1, 0, 15⟩ (by decide) (by decide)

/-- C9 counterexample: a runtime remove charges NO tombstone cost to the
uncompacted counter — the tombstone goes through the inner
`buf_writer.writer` (src/engine/kv.rs:252), so the wrapper-position
delta `pos_after_writing - pos_before_writing` (src/engine/kv.rs:259-260)
is 0 and only the removed entry's length is added. Removing the 3-byte
entry of c9Store adds 3, not the claimed tombstone cost + 3. -/
theorem C9_counterexample :
    (removeOp false keyA c9Store).1 = none ∧
    (removeOp false keyA c9Store).2.uncompacted = c9Store.uncompacted + 3 ∧
    c9Store.uncompacted + 3
      ≠ c9Store.uncompacted + (ser (.rm keyA)).length + 3 := by
  refine ⟨by decide, by decide, by decide⟩

/-- C9 amended: between two compactions the uncompacted counter never
decreases — a set that does not trigger compaction adds exactly the
overwritten entry's length, and a remove that does not trigger
compaction adds exactly the removed entry's length (its tombstone's byte
cost is measured as the wrapper-position delta, which is 0 because the
tombstone bypasses the positioned wrapper) — and immediately after a
compaction returns successfully the counter is exactly zero. -/
theorem C9_amended :
    (∀ k v s, s.uncompacted + (match kdLookup k s.keyDir with
        | some o => o.len
        | none => 0) ≤ COMPACTION_THRESHOLD →
      (setOp k v s).2.uncompacted = s.uncompacted + (match kdLookup k s.keyDir with
        | some o => o.len
        | none => 0) ∧
      s.uncompacted ≤ (setOp k v s).2.uncompacted) ∧
    (∀ k s old, kdLookup k s.keyDir = some old →
      s.uncompacted + old.len ≤ COMPACTION_THRESHOLD →
      (removeOp false k s).2.uncompacted = s.uncompacted + old.len ∧
      s.uncompacted ≤ (removeOp false k s).2.uncompacted) ∧
    (∀ s, (compactionOp s).1 = none → (compactionOp s).2.uncompacted = 0) := by
  refine ⟨?_, ?_, ?_⟩
  · intro k v s hle
    simp only [setOp]
    rw [if_neg (by omega)]
    exact ⟨rfl, by dsimp only; omega⟩
  · intro k s old hlk hle
    simp only [removeOp, hlk, Bool.false_eq_true, if_neg, reduceIte]
    rw [if_neg (by omega)]
    constructor
    · dsimp only
      omega
    · dsimp only
      omega
  · intro s hok
    exact (compactionOp_ok_inv s hok).2.1

/-- Witness for C9 amended: a first set on the empty store adds nothing;
removing the 3-byte-entry key of c9Store adds exactly 3; the first
compaction of the empty store resets the counter to zero. -/
theorem C9_amended_witness :
    (setOp keyA valX initStore).2.uncompacted = initStore.uncompacted
        + (match kdLookup keyA initStore.keyDir with
           | some o => o.len
           | none => 0) ∧
    (removeOp false keyA c9Store).2.uncompacted = c9Store.uncompacted + 3 ∧
    (compactionOp initStore).2.uncompacted = 0 := by
  refine ⟨(C9_amended.1 keyA valX initStore (by decide)).1, ?_, ?_⟩
  · exact (C9_amended.2.1 keyA c9Store ⟨1, 0, 3⟩ (by decide) (by decide)).1
  · exact C9_amended.2.2 initStore (by decide)

/-- Witness for C4 amended: removing an absent key from the freshly
opened store, in both engines. -/
theorem C4_amended_witness :
    removeOp false keyA initStore = (some .keyNotFound, initStore) ∧
    (oldRemove keyA oldInit).1 = some .keyNotFound ∧
    oldGet keyA (oldRemove keyA oldInit).2 = oldGet keyA oldInit := by
  refine ⟨C4_amended.1 false keyA initStore (by decide),
    (C4_amended.2.2.1 keyA oldInit (by decide)).1,
    C4_amended.2.2.2 keyA keyA oldInit [] (by decide) (by decide) (by decide) ?_⟩
  intro pos c hlk
  simp [oldInit, kdLookup] at hlk

end KvStore
